import Mathlib

/-!
# gin 0.1: handler chain, route groups and the Basic-Auth credential store

A shallow embedding of `gin-0.1/gin.go`, `gin-0.1/auth.go` and `gin-0.1/logger.go`, of the
response wrapper of `gin-0.2b` and `gin-0.3` (`response_writer.go`) and of `writeHeader` of
`gin-0.3/render/render.go`.

* Go strings are byte sequences: `GoString` is a list of byte values.
* `Context.index` is an `int8`; it is an `Int` here and every increment and
  conversion goes through `int8`, which wraps modulo 2^8.
* A `HandlerFunc` is a Go closure over `*Context`.  It is represented by the
  sequence of `Context` operations it performs (`HandlerFunc` below), where the
  handler may look at the context before choosing how to go on.
* The handlers the source defines itself (`BasicAuth`, `ErrorLogger`) are given as `Handler`s:
  what a call does, given what `c.Next()` does.
* Library encoders (`encoding/json`, `encoding/xml`) are parameters of `JSON` and `XML`.
* The router (`httprouter`) is a library too: whether it accepts a registration or panics is
  a parameter of `Handle` (`Router`).
* `Context.Next` may fail to return (a handler list longer than the abort
  sentinel can loop for ever), so the loop of `Next` carries a bound on the
  number of iterations and nested calls.
-/

namespace Gin

/-! ## Strings -/

/-- Go `string`: a sequence of bytes. -/
abbrev GoString := List Nat

/-- The bytes of an ASCII literal. -/
def str (s : String) : GoString := s.toList.map Char.toNat

/-- Go `<` on strings: byte-wise lexicographic order, a proper prefix is smaller. -/
def strLess : GoString → GoString → Bool
  | [], [] => false
  | [], _ :: _ => true
  | _ :: _, [] => false
  | a :: as, b :: bs => if a < b then true else if b < a then false else strLess as bs

/-! ## The execution context (gin.go) -/

/-- `AbortIndex = math.MaxInt8 / 2`. -/
def AbortIndex : Int := 127 / 2

/-- Conversion to `int8`, also the result of `int8` arithmetic: wrap modulo 2^8. -/
def int8 (x : Int) : Int := (x + 128) % 256 - 128

/-- Go `interface{}` values as far as the context stores them. -/
inductive Any where
  | nil : Any
  | text (s : GoString) : Any
  | obj (id : Nat) : Any
deriving DecidableEq, Repr

/-- `ErrorMsg`: one collected error. -/
structure ErrorMsg where
  Message : GoString
  Meta : Any
deriving DecidableEq, Repr

/-- What has been sent to the `http.ResponseWriter` of the request: the header map, the
status codes passed to `WriteHeader` (oldest first) and the body bytes. -/
structure ResponseWriter where
  header : List (GoString × GoString)
  statusWrites : List Int
  body : List Nat
deriving DecidableEq, Repr

/-- `w.WriteHeader(code)`. -/
def ResponseWriter.WriteHeader (w : ResponseWriter) (code : Int) : ResponseWriter :=
  { w with statusWrites := w.statusWrites ++ [code] }

/-- Observation of a dispatch (not a field of the Go struct): `enter i` is recorded when the
loop of `Next` calls `handlers[i]`, `work t` when a handler runs its own statement `t`. -/
inductive Event where
  | enter (i : Nat) : Event
  | work (tag : Nat) : Event
deriving DecidableEq, Repr

/-- `Context`.  The field `handlers` is fixed when the context is created and never
assigned afterwards; it is passed beside this record to `Next`.  `authorization` is
`Req.Header.Get("Authorization")`.  `trace` is the observation log. -/
structure Context where
  authorization : GoString
  Writer : ResponseWriter
  Keys : Option (List (GoString × Any))
  Errors : List ErrorMsg
  index : Int
  trace : List Event
deriving DecidableEq, Repr

/-- A handler, as the operations it performs on the context it is given, in order.
`next k` is `c.Next()` followed by `k`; `read f` lets the handler inspect the context. -/
inductive HandlerFunc where
  | ret : HandlerFunc
  | next (k : HandlerFunc) : HandlerFunc
  | abort (code : Int) (k : HandlerFunc) : HandlerFunc
  | fail (code : Int) (err : GoString) (k : HandlerFunc) : HandlerFunc
  | error (err : GoString) (meta : Any) (k : HandlerFunc) : HandlerFunc
  | set (key : GoString) (item : Any) (k : HandlerFunc) : HandlerFunc
  | work (tag : Nat) (k : HandlerFunc) : HandlerFunc
  | read (f : Context → HandlerFunc) : HandlerFunc

/-- `createContext`: a fresh context, `index: -1`, everything else zero. -/
def createContext (authorization : GoString) : Context :=
  { authorization := authorization
    Writer := { header := [], statusWrites := [], body := [] }
    Keys := none
    Errors := []
    index := -1
    trace := [] }

/-- `c.Abort(code)`. -/
def Context.Abort (c : Context) (code : Int) : Context :=
  { c with Writer := c.Writer.WriteHeader code, index := AbortIndex }

/-- `c.Error(err, meta)`; `err` is given by its message `err.Error()`. -/
def Context.Error (c : Context) (err : GoString) (meta : Any) : Context :=
  { c with Errors := c.Errors ++ [{ Message := err, Meta := meta }] }

/-- `c.Fail(code, err)`. -/
def Context.Fail (c : Context) (code : Int) (err : GoString) : Context :=
  (c.Error err (Any.text (str "Operation aborted"))).Abort code

/-- `c.Set(key, item)`, with the lazy allocation of the map. -/
def Context.Set (c : Context) (key : GoString) (item : Any) : Context :=
  let keys := match c.Keys with
    | none => []
    | some m => m
  { c with Keys := some ((key, item) :: keys.filter (fun kv => kv.1 ≠ key)) }

/-- The statement `c.index++` on the `int8` field. -/
def Context.incr (c : Context) : Context := { c with index := int8 (c.index + 1) }

/-- Record that `handlers[i]` is being called. -/
def Context.enter (c : Context) (i : Nat) : Context :=
  { c with trace := c.trace ++ [Event.enter i] }

/-- How a call ended. -/
inductive Outcome where
  | done (c : Context) : Outcome
  | panicked (c : Context) : Outcome
  | outOfFuel : Outcome
deriving DecidableEq, Repr

/-- Sequencing: go on only after a normal return. -/
def Outcome.bind (r : Outcome) (f : Context → Outcome) : Outcome :=
  match r with
  | .done c => f c
  | .panicked c => .panicked c
  | .outOfFuel => .outOfFuel

/-- The events observed, when the call ended with a context. -/
def Outcome.trace : Outcome → List Event
  | .done c => c.trace
  | .panicked c => c.trace
  | .outOfFuel => []

/-- Run the body of a handler on `c`; `next` is what `c.Next()` does. -/
def HandlerFunc.call (next : Context → Outcome) : HandlerFunc → Context → Outcome
  | .ret, c => .done c
  | .next k, c => (next c).bind (call next k)
  | .abort code k, c => call next k (c.Abort code)
  | .fail code err k, c => call next k (c.Fail code err)
  | .error err meta k, c => call next k (c.Error err meta)
  | .set key item k, c => call next k (c.Set key item)
  | .work tag k, c => call next k { c with trace := c.trace ++ [Event.work tag] }
  | .read f, c => call next (f c) c

/-- The `for ; c.index < s; c.index++ { c.handlers[c.index](c) }` statement of `Next`, with
`s := int8(len(c.handlers))`.  A negative or too large index is a run-time panic.  `fuel`
bounds the iterations and the depth of nested `Next` calls. -/
def Context.nextLoop (handlers : List HandlerFunc) : Nat → Context → Outcome
  | 0, _ => .outOfFuel
  | fuel + 1, c =>
    if c.index < int8 handlers.length then
      if c.index < 0 then .panicked c
      else
        match handlers[c.index.toNat]? with
        | none => .panicked c
        | some h =>
          (h.call (fun c1 => nextLoop handlers fuel c1.incr) (c.enter c.index.toNat)).bind
            (fun c2 => nextLoop handlers fuel c2.incr)
    else .done c

/-- `c.Next()`: `c.index++`, then the loop. -/
def Context.Next (handlers : List HandlerFunc) (fuel : Nat) (c : Context) : Outcome :=
  Context.nextLoop handlers fuel c.incr


/-! ## Route groups (gin.go) -/

/-- Split a path at every `/` (byte 47). -/
def splitSlash : GoString → List GoString
  | [] => [[]]
  | b :: rest =>
    if b = 47 then [] :: splitSlash rest
    else
      match splitSlash rest with
      | [] => [[b]]
      | seg :: segs => (b :: seg) :: segs

/-- One path element in `path.Clean`: `..` removes the element before it when there is one
that is not itself `..`, is dropped at the root, and is kept otherwise. -/
def cleanStep (rooted : Bool) (out : List GoString) (seg : GoString) : List GoString :=
  if seg = str ".." then
    match out.getLast? with
    | none => if rooted then out else out ++ [seg]
    | some top => if top = str ".." then out ++ [seg] else out.dropLast
  else out ++ [seg]

/-- Library `path.Clean`: the shortest equivalent path, by its documented rules. -/
def pathClean (path : GoString) : GoString :=
  let rooted := path.head? = some 47
  let segs := (splitSlash path).filter (fun s => s ≠ [] ∧ s ≠ str ".")
  let out := segs.foldl (cleanStep rooted) []
  let joined := (if rooted then str "/" else []) ++ (out.intersperse (str "/")).flatten
  if joined = [] then str "." else joined

/-- Library `path.Join` of two elements: empty elements are ignored, the result is cleaned,
and two empty elements give the empty string. -/
def pathJoin (a b : GoString) : GoString :=
  if a ≠ [] then pathClean (a ++ str "/" ++ b)
  else if b ≠ [] then pathClean b
  else []

/-- `RouterGroup`.  `parent` is the address of the parent group in the engine. -/
structure RouterGroup where
  Handlers : List HandlerFunc
  prefix_ : GoString
  parent : Option Nat

/-- What `engine.router.Handle` was given: method, absolute path, and the handler list the
registered closure captured. -/
structure Route where
  method : GoString
  path : GoString
  handlers : List HandlerFunc

/-- `Engine`: the groups that exist, by address (`*RouterGroup`; address 0 is the embedded
root group), the 404 handlers and the routes registered so far, oldest first. -/
structure Engine where
  groups : List RouterGroup
  handlers404 : List HandlerFunc
  routes : List Route

/-- `New()`. -/
def New : Engine :=
  { groups := [{ Handlers := [], prefix_ := [], parent := none }]
    handlers404 := []
    routes := [] }

/-- `group.combineHandlers(handlers)`: a new slice holding the group's handlers followed by
`handlers`. -/
def RouterGroup.combineHandlers (group : RouterGroup) (handlers : List HandlerFunc) :
    List HandlerFunc :=
  group.Handlers ++ handlers

/-- `group.Use(middlewares...)` on the group at address `g`. -/
def Engine.Use (e : Engine) (g : Nat) (middlewares : List HandlerFunc) : Option Engine :=
  match e.groups[g]? with
  | none => none
  | some group =>
    some { e with groups := e.groups.set g { group with Handlers := group.Handlers ++ middlewares } }

/-- `group.Group(component, handlers...)` on the group at address `g`: the new engine state
and the address of the new group. -/
def Engine.Group (e : Engine) (g : Nat) (component : GoString) (handlers : List HandlerFunc) :
    Option (Engine × Nat) :=
  match e.groups[g]? with
  | none => none
  | some group =>
    let child : RouterGroup :=
      { Handlers := group.combineHandlers handlers
        parent := some g
        prefix_ := pathJoin group.prefix_ component }
    some ({ e with groups := e.groups ++ [child] }, e.groups.length)

/-- What `engine.router` does with a registration.  The router is an `httprouter.Router`, a
library outside this repository; its `Handle` either registers the handle for the method and
path or panics and registers nothing (as it does for a path that does not begin with `/` and
for a path that conflicts with a registered one).  A `Router` says, for the methods and paths
registered so far (oldest first) and a new method and path, whether the registration is
accepted. -/
abbrev Router := List (GoString × GoString) → GoString → GoString → Bool

/-- The methods and paths the router holds. -/
def Engine.registered (e : Engine) : List (GoString × GoString) :=
  e.routes.map (fun route => (route.method, route.path))

/-- `group.Handle(method, p, handlers)` on the group at address `g`, with the router of the
engine.  `none`: the call does not return, because the router panics on the path (or `g` is
not the address of a group); nothing is registered then. -/
def Engine.Handle (e : Engine) (router : Router) (g : Nat) (method p : GoString)
    (handlers : List HandlerFunc) : Option Engine :=
  match e.groups[g]? with
  | none => none
  | some group =>
    let p := pathJoin group.prefix_ p
    let handlers := group.combineHandlers handlers
    if router e.registered method p = true then
      some { e with routes := e.routes ++ [{ method := method, path := p, handlers := handlers }] }
    else none

/-! ## Basic-Auth credentials (auth.go) -/

/-- `BasicAuthPair`. -/
structure BasicAuthPair where
  Code : GoString
  User : GoString
deriving DecidableEq, Repr

/-- `Account`. -/
structure Account where
  User : GoString
  Password : GoString
deriving DecidableEq, Repr

abbrev Accounts := List Account
abbrev Pairs := List BasicAuthPair

/-- `Pairs.Less` on the entries themselves: `a[i].Code < a[j].Code`. -/
def BasicAuthPair.Less (p q : BasicAuthPair) : Bool := strLess p.Code q.Code

/-- `a.Less(i, j)`. -/
def Pairs.Less (a : Pairs) (i j : Nat) : Bool :=
  match a[i]?, a[j]? with
  | some p, some q => p.Less q
  | _, _ => false

/-- The alphabet of `base64.StdEncoding`. -/
def encodeStd : GoString :=
  str "ABCDEFGHIJKLMNOPQRSTUVWXYZabcdefghijklmnopqrstuvwxyz0123456789+/"

/-- The character for a 6-bit value. -/
def encodeStd.at (v : Nat) : Nat := encodeStd.getD (v % 64) 0

/-- Library `base64.StdEncoding.EncodeToString`: three bytes become four characters, a last
group of one or two bytes is padded with `=` (byte 61). -/
def base64Encode : GoString → GoString
  | [] => []
  | [a] =>
    let val := a * 65536
    [encodeStd.at (val / 262144), encodeStd.at (val / 4096), 61, 61]
  | [a, b] =>
    let val := a * 65536 + b * 256
    [encodeStd.at (val / 262144), encodeStd.at (val / 4096), encodeStd.at (val / 64), 61]
  | a :: b :: c :: rest =>
    let val := a * 65536 + b * 256 + c
    [encodeStd.at (val / 262144), encodeStd.at (val / 4096), encodeStd.at (val / 64),
      encodeStd.at val] ++ base64Encode rest

/-- The token of an account: `"Basic " + base64(User + ":" + Password)`. -/
def Account.code (account : Account) : GoString :=
  str "Basic " ++ base64Encode (account.User ++ str ":" ++ account.Password)

/-- Library `sort.Sort` on `Pairs`: ascending by `Less`.  It is modelled by insertion sort
(what the library runs on short slices); an entry goes before the entries that are not
smaller than it. -/
def sortPairs (pairs : Pairs) : Pairs :=
  pairs.insertionSort (fun p q => q.Less p = false)

/-- The `for _, account := range accounts` loop of `processCredentials`; `pairs` is the
slice built so far. -/
def processCredentials.loop : Accounts → Pairs → Except GoString Pairs
  | [], pairs => .ok pairs
  | account :: rest, pairs =>
    if account.User.length = 0 ∨ account.Password.length = 0 then
      .error (str "User or password is empty")
    else
      processCredentials.loop rest (pairs ++ [{ Code := account.code, User := account.User }])

/-- `processCredentials(accounts)`: the error, or the sorted pairs. -/
def processCredentials (accounts : Accounts) : Except GoString Pairs :=
  if accounts.length = 0 then .error (str "Empty list of authorized credentials.")
  else
    match processCredentials.loop accounts [] with
    | .error err => .error err
    | .ok pairs => .ok (sortPairs pairs)

/-- The loop of library `sort.Search`: `for i < j { h := (i+j)/2; if !f(h) { i = h+1 } else
{ j = h } }; return i`.  The first argument bounds the iterations; `j - i` is enough. -/
def sortSearch.loop (f : Nat → Bool) : Nat → Nat → Nat → Nat
  | 0, i, _ => i
  | fuel + 1, i, j =>
    if i < j then
      let h := (i + j) / 2
      if !f h then sortSearch.loop f fuel (h + 1) j else sortSearch.loop f fuel i h
    else i

/-- Library `sort.Search(n, f)`. -/
def sortSearch (n : Nat) (f : Nat → Bool) : Nat := sortSearch.loop f n 0 n

/-- Library `subtle.ConstantTimeCompare`: 1 when the two byte slices have equal contents,
0 otherwise. -/
def ConstantTimeCompare (x y : GoString) : Int := if x = y then 1 else 0

/-- The `Code` at position `i`, for the probe of `sort.Search` (which stays below `len`). -/
def Pairs.codeAt (pairs : Pairs) (i : Nat) : GoString :=
  match pairs[i]? with
  | some p => p.Code
  | none => []

/-- `searchCredential(pairs, auth)`. -/
def searchCredential (pairs : Pairs) (auth : GoString) : GoString :=
  if auth.length = 0 then []
  else
    let r := sortSearch pairs.length (fun i => !strLess (pairs.codeAt i) auth)
    match pairs[r]? with
    | some p => if ConstantTimeCompare p.Code auth = 1 then p.User else []
    | none => []

/-! ## Writing the response, the key/value table (gin.go) -/

/-- `w.Header().Set(key, value)`: the entry for `key` is replaced. -/
def ResponseWriter.HeaderSet (w : ResponseWriter) (key value : GoString) : ResponseWriter :=
  { w with header := (key, value) :: w.header.filter (fun kv => kv.1 ≠ key) }

/-- `w.Header().Get(key)`: the value set for `key`, or the empty string. -/
def ResponseWriter.HeaderGet (w : ResponseWriter) (key : GoString) : GoString :=
  match w.header.find? (fun kv => kv.1 = key) with
  | some kv => kv.2
  | none => []

/-- `w.Write(data)`: the bytes are appended to the body. -/
def ResponseWriter.Write (w : ResponseWriter) (data : GoString) : ResponseWriter :=
  { w with body := w.body ++ data }

/-- Library `http.Error(w, error, code)`: two headers, `w.WriteHeader(code)`, then the
message and a newline (byte 10) as body. -/
def httpError (w : ResponseWriter) (error : GoString) (code : Int) : ResponseWriter :=
  (((w.HeaderSet (str "Content-Type") (str "text/plain; charset=utf-8")).HeaderSet
      (str "X-Content-Type-Options") (str "nosniff")).WriteHeader code).Write (error ++ [10])

/-- `c.Get(key)`: the stored item, or the panic with its message. -/
def Context.Get (c : Context) (key : GoString) : Except GoString Any :=
  let found : Any × Bool :=
    match c.Keys with
    | some m =>
      match m.find? (fun kv => kv.1 = key) with
      | some kv => (kv.2, true)
      | none => (Any.nil, false)
    | none => (Any.nil, false)
  if !found.2 || found.1 = Any.nil then
    .error (str "Key " ++ key ++ str " doesn't exist")
  else .ok found.1

/-- `c.JSON(code, obj)`.  `encode` is what `json.NewEncoder(c.Writer).Encode` makes of a
value: the bytes it writes, or its error. -/
def Context.JSON (encode : Any → Except GoString GoString) (c : Context) (code : Int)
    (obj : Any) : Context :=
  let c1 := if code ≥ 0 then { c with Writer := c.Writer.WriteHeader code } else c
  let c2 := { c1 with Writer := c1.Writer.HeaderSet (str "Content-Type") (str "application/json") }
  match encode obj with
  | .ok bytes => { c2 with Writer := c2.Writer.Write bytes }
  | .error err =>
    let c3 := c2.Error err obj
    { c3 with Writer := httpError c3.Writer err 500 }

/-- `c.XML(code, obj)`, with `encode` for `xml.NewEncoder(c.Writer).Encode`. -/
def Context.XML (encode : Any → Except GoString GoString) (c : Context) (code : Int)
    (obj : Any) : Context :=
  let c1 := if code ≥ 0 then { c with Writer := c.Writer.WriteHeader code } else c
  let c2 := { c1 with Writer := c1.Writer.HeaderSet (str "Content-Type") (str "application/xml") }
  match encode obj with
  | .ok bytes => { c2 with Writer := c2.Writer.Write bytes }
  | .error err =>
    let c3 := c2.Error err obj
    { c3 with Writer := httpError c3.Writer err 500 }

/-! ## The response wrapper (gin-0.2b and gin-0.3 response_writer.go) -/

/-- `responseWriter`: the embedded `http.ResponseWriter` it forwards to, and the mirrored
status and written flag. -/
structure responseWriter where
  ResponseWriter : Gin.ResponseWriter
  status : Int
  written : Bool
deriving DecidableEq, Repr

/-- `w.reset(writer)`. -/
def responseWriter.reset (_w : responseWriter) (writer : Gin.ResponseWriter) : responseWriter :=
  { ResponseWriter := writer, status := 0, written := false }

/-- `w.setStatus(code)`. -/
def responseWriter.setStatus (w : responseWriter) (code : Int) : responseWriter :=
  { w with status := code }

/-- `w.WriteHeader(code)`. -/
def responseWriter.WriteHeader (w : responseWriter) (code : Int) : responseWriter :=
  { w with status := code, written := true, ResponseWriter := w.ResponseWriter.WriteHeader code }

/-- `w.Status()`. -/
def responseWriter.Status (w : responseWriter) : Int := w.status

/-- `w.Written()`. -/
def responseWriter.Written (w : responseWriter) : Bool := w.written

/-- `writeHeader(w, code, contentType)` of gin-0.3 render.go. -/
def render.writeHeader (w : ResponseWriter) (code : Int) (contentType : GoString) :
    ResponseWriter :=
  if code ≥ 0 then (w.HeaderSet (str "Content-Type") contentType).WriteHeader code else w

/-- `w.Write(data)` on the wrapper.  The wrapper declares no `Write` of its own: the call
is the promoted method of the embedded `http.ResponseWriter`. -/
def responseWriter.Write (w : responseWriter) (data : GoString) : responseWriter :=
  { w with ResponseWriter := w.ResponseWriter.Write data }

/-! ## Validation (gin-0.1 validation.go, gin-0.2b binding.go) -/

/-- What `Validate` reads of a struct field by reflection: its name and its `binding`, `json`
and `form` tags. -/
structure FieldInfo where
  Name : GoString
  binding : GoString
  json : GoString
  form : GoString
deriving DecidableEq, Repr

/-- The fields of a struct value, in declaration order.  A field is of scalar type (`zero`
says whether it holds the zero value of its type) or of struct type (with the fields of the
nested value). -/
inductive Fields where
  | nil : Fields
  | scalar (info : FieldInfo) (zero : Bool) (rest : Fields) : Fields
  | nested (info : FieldInfo) (inner : Fields) (rest : Fields) : Fields
deriving DecidableEq, Repr

/-- `reflect.DeepEqual(zero, v)` for a struct value `v`: every field holds its zero value. -/
def Fields.isZero : Fields → Bool
  | .nil => true
  | .scalar _ zero rest => zero && rest.isZero
  | .nested _ inner rest => inner.isZero && rest.isZero

/-- `s` begins with `t`. -/
def startsWith : GoString → GoString → Bool
  | _, [] => true
  | [], _ :: _ => false
  | a :: s, b :: t => a = b && startsWith s t

/-- Library `strings.Index(s, sub) > -1`: `sub` occurs in `s`. -/
def hasSubstr : GoString → GoString → Bool
  | [], sub => startsWith [] sub
  | a :: s, sub => startsWith (a :: s) sub || hasSubstr s sub

/-- The name `Validate` reports for a field: the `json` tag, else the `form` tag, else the
field name. -/
def FieldInfo.reportName (info : FieldInfo) : GoString :=
  if info.json ≠ [] then info.json else if info.form ≠ [] then info.form else info.Name

/-- The `required` part of the loop body of gin-0.1 `Validate`, for a field whose value is
zero or not: the context and the variable `err` afterwards. -/
def Validate.required (c : Context) (err : Option GoString) (info : FieldInfo) (zero : Bool) :
    Context × Option GoString :=
  if hasSubstr info.binding (str "required") then
    if zero then
      let e := str "Required " ++ info.reportName
      (c.Error e (Any.text (str "json validation")), some e)
    else (c, err)
  else (c, err)

/-- The loop of gin-0.1 `Validate` over the fields that are left; `err` is the variable
`err` so far.  For a nested struct `err = Validate(c, fieldValue)` comes first. -/
def Validate.fields : Fields → Context → Option GoString → Context × Option GoString
  | .nil, c, err => (c, err)
  | .scalar info zero rest, c, err =>
    let r := Validate.required c err info zero
    Validate.fields rest r.1 r.2
  | .nested info inner rest, c, _ =>
    let r1 := Validate.fields inner c none
    let r2 := Validate.required r1.1 r1.2 info inner.isZero
    Validate.fields rest r2.1 r2.2

/-- `Validate(c, obj)` of gin-0.1 for a struct value (or a pointer to one): the context
afterwards and the returned error (`none` is nil). -/
def Validate (c : Context) (obj : Fields) : Context × Option GoString :=
  Validate.fields obj c none

/-- `Validate(obj)` of gin-0.2b binding.go: the first error is returned at once. -/
def binding.Validate : Fields → Option GoString
  | .nil => none
  | .scalar info zero rest =>
    if hasSubstr info.binding (str "required") && zero then
      some (str "Required " ++ info.reportName)
    else binding.Validate rest
  | .nested info inner rest =>
    match binding.Validate inner with
    | some err => some err
    | none =>
      if hasSubstr info.binding (str "required") && inner.isZero then
        some (str "Required " ++ info.reportName)
      else binding.Validate rest

/-- `c.ParseBody(item)` of gin-0.1 once the body is decoded: a decoding error is returned,
otherwise the result of `Validate`. -/
def Context.ParseBody (c : Context) (decoded : Except GoString Fields) :
    Context × Option GoString :=
  match decoded with
  | .ok item => Validate c item
  | .error err => (c, some err)

/-- `c.EnsureBody(item)` of gin-0.1: `Fail(400, err)` and false on an error of `ParseBody`. -/
def Context.EnsureBody (c : Context) (decoded : Except GoString Fields) : Context × Bool :=
  match c.ParseBody decoded with
  | (c1, some err) => (c1.Fail 400 err, false)
  | (c1, none) => (c1, true)

/-! ## The bundled handlers (auth.go, logger.go) -/

/-- A handler of the source, given by what a call of it does: the first argument is what
`c.Next()` does, the second the context it is called on (`HandlerFunc.call` gives this for
a handler in operation form). -/
abbrev Handler := (Context → Outcome) → Context → Outcome

/-- The closure returned by `BasicAuth`, over the `pairs` it has computed. -/
def BasicAuth.handler (pairs : Pairs) : Handler := fun _ c =>
  let user := searchCredential pairs c.authorization
  if user.length = 0 then
    let c1 := { c with Writer := c.Writer.HeaderSet (str "WWW-Authenticate")
                          (str "Basic realm=\"Authorization Required\"") }
    .done (c1.Fail 401 (str "Unauthorized"))
  else
    .done (c.Set (str "user") (Any.text user))

/-- `BasicAuth(accounts)`: the panic with the error of `processCredentials`, or the handler. -/
def BasicAuth (accounts : Accounts) : Except GoString Handler :=
  match processCredentials accounts with
  | .error err => .error err
  | .ok pairs => .ok (BasicAuth.handler pairs)

/-- `ErrorLogger()` of gin-0.1: `c.Next()`, then `c.JSON(-1, c.Errors)` when there are
errors.  `errorsValue` is the `interface{}` value that holds the slice `c.Errors`. -/
def ErrorLogger (encode : Any → Except GoString GoString) (errorsValue : List ErrorMsg → Any) :
    Handler := fun next c =>
  (next c).bind (fun c1 =>
    if c1.Errors.length > 0 then .done (c1.JSON encode (-1) (errorsValue c1.Errors))
    else .done c1)

/-! ## Scenarios used in the statements -/

/-- A handler never calls `Next`, `Abort` or `Fail`, whatever it reads. -/
def HandlerFunc.plain : HandlerFunc → Prop
  | .ret => True
  | .next _ => False
  | .abort _ _ => False
  | .fail _ _ _ => False
  | .error _ _ k => plain k
  | .set _ _ k => plain k
  | .work _ k => plain k
  | .read f => ∀ c, plain (f c)

/-- A handler never calls `Error` or `Fail`, whatever it reads. -/
def HandlerFunc.quiet : HandlerFunc → Prop
  | .ret => True
  | .next k => quiet k
  | .abort _ k => quiet k
  | .fail _ _ _ => False
  | .error _ _ _ => False
  | .set _ _ k => quiet k
  | .work _ k => quiet k
  | .read f => ∀ c, quiet (f c)

/-- A chain of 65 handlers: handler 0 wraps the rest (`work 10; c.Next(); work 11`), handler 1
aborts (`c.Abort(401); work 12`), handlers 2 to 63 return at once, handler 64 does `work 13`. -/
def abortChain65 : List HandlerFunc :=
  [HandlerFunc.work 10 (.next (.work 11 .ret)), HandlerFunc.abort 401 (.work 12 .ret)]
    ++ List.replicate 62 HandlerFunc.ret ++ [HandlerFunc.work 13 .ret]

/-- The derivation of a group from some existing group: the one at address
`parent % (number of groups)`. -/
structure Derivation where
  parent : Nat
  component : GoString
  handlers : List HandlerFunc

/-- Perform one derivation. -/
def Engine.derive (e : Engine) (d : Derivation) : Option Engine :=
  match e.Group (d.parent % e.groups.length) d.component d.handlers with
  | none => none
  | some (e1, _) => some e1

/-- Perform derivations in order. -/
def Engine.deriveAll : Engine → List Derivation → Option Engine
  | e, [] => some e
  | e, d :: ds =>
    match e.derive d with
    | none => none
    | some e1 => deriveAll e1 ds

/-- Successive calls `g.Use(ms...)` on the group at address `g`. -/
def Engine.useAll : Engine → Nat → List (List HandlerFunc) → Option Engine
  | e, _, [] => some e
  | e, g, ms :: rest =>
    match e.Use g ms with
    | none => none
    | some e1 => useAll e1 g rest

/-- One link of a chain of groups: the other groups derived just before it, then the
component and handlers given to `Group`. -/
structure ChainStep where
  before : List Derivation
  component : GoString
  handlers : List HandlerFunc

/-- Starting at the group at address `g`, derive a chain `g.Group(c1, h1...)`,
`.Group(c2, h2...)`, ...; the result is the engine and the address of the last group. -/
def Engine.deriveChain : Engine → Nat → List ChainStep → Option (Engine × Nat)
  | e, g, [] => some (e, g)
  | e, g, s :: ss =>
    match e.deriveAll s.before with
    | none => none
    | some e1 =>
      match e1.Group g s.component s.handlers with
      | none => none
      | some (e2, g2) => deriveChain e2 g2 ss

/-- On a new engine: calls of `Use` on the root, a chain of groups under the root with other
groups derived in between and afterwards, then `Handle(method, p, r)` on the last group. -/
def registerUnderChain (router : Router) (uses : List (List HandlerFunc))
    (steps : List ChainStep) (after : List Derivation) (method p : GoString)
    (r : List HandlerFunc) : Option Engine :=
  match New.useAll 0 uses with
  | none => none
  | some e0 =>
    match e0.deriveChain 0 steps with
    | none => none
    | some (e1, gd) =>
      match e1.deriveAll after with
      | none => none
      | some e2 => e2.Handle router gd method p r

/-- A router that refuses a path that does not begin with `/` and a method and path that are
registered already, and accepts every other registration. -/
def slashRouter : Router := fun registered method path =>
  path.head? = some 47 && !registered.contains (method, path)

/-- The entry `processCredentials` builds for an account. -/
def Account.pair (account : Account) : BasicAuthPair :=
  { Code := account.code, User := account.User }

/-- The first account of the example store: alice with password `pw1`. -/
def alice : Account := { User := str "alice", Password := str "pw1" }

/-- The second account of the example store: bob with password `pw2`. -/
def bob : Account := { User := str "bob", Password := str "pw2" }

/-- User `a` with password `b:c`; `User + ":" + Password` is `a:b:c`. -/
def colonFirst : Account := { User := str "a", Password := str "b:c" }

/-- User `a:b` with password `c`; `User + ":" + Password` is again `a:b:c`. -/
def colonSecond : Account := { User := str "a:b", Password := str "c" }

/-- From the spec's words for `fail`: an error record with meta `"Operation aborted"` is
recorded, the response status is set to `statusCode`, and the cursor is forced to the abort
sentinel; nothing else changes. -/
def Context.failSpec (c : Context) (statusCode : Int) (err : GoString) : Context :=
  { c with
    Errors := c.Errors ++ [{ Message := err, Meta := Any.text (str "Operation aborted") }]
    Writer := { c.Writer with statusWrites := c.Writer.statusWrites ++ [statusCode] }
    index := 63 }

/-- The entry of the key/value table for `key`: `none` when the table was never allocated or
has no such key. -/
def Context.entry (c : Context) (key : GoString) : Option Any :=
  match c.Keys with
  | none => none
  | some m => (m.find? (fun kv => kv.1 = key)).map (fun kv => kv.2)

/-- An encoder that fails on every value. -/
def failingEncode : Any → Except GoString GoString := fun _ => .error (str "unsupported type")

/-- A wrapper that has written status 200. -/
def writtenOK : responseWriter :=
  { ResponseWriter := { header := [], statusWrites := [200], body := [] }
    status := 200
    written := true }

/-- An account whose `User` differs from bob's in the third byte: bot with password `pw2`. -/
def bot : Account := { User := str "bot", Password := str "pw2" }

/-- The string `User + ":" + Password` that `processCredentials` encodes. -/
def Account.base (account : Account) : GoString :=
  account.User ++ str ":" ++ account.Password

/-- Every element is a byte value. -/
def GoString.wellFormed (s : GoString) : Prop := ∀ b ∈ s, b < 256

instance (s : GoString) : Decidable (GoString.wellFormed s) := by
  unfold GoString.wellFormed
  infer_instance

/-- The value of `struct { A int "binding:required"; B struct{} }` with `A = 0`. -/
def requiredThenNested : Fields :=
  .scalar { Name := str "A", binding := str "required", json := [], form := [] } true
    (.nested { Name := str "B", binding := [], json := [], form := [] } .nil .nil)

/-- A handler that aborts the first time it is called and returns at once afterwards; it
records the index it sees before and after its `Abort(401)` as `work` events. -/
def abortOnce : HandlerFunc :=
  .read (fun c =>
    if c.Writer.statusWrites = [] then
      .work c.index.toNat (.abort 401 (.read (fun c1 => .work c1.index.toNat .ret)))
    else .ret)

/-- A chain of 65 handlers: 64 that return at once, then `abortOnce`. -/
def abortAt64 : List HandlerFunc := List.replicate 64 HandlerFunc.ret ++ [abortOnce]

/-- What is observed of a dispatch: the loop of `Next` calls the handler at an index; a
handler calls `Abort`, directly or through `Fail`. -/
inductive Step where
  | called (i : Nat) : Step
  | aborted : Step
deriving DecidableEq, Repr

/-- The indexes of the handlers called, in the order of the calls. -/
def calls : List Step → List Nat
  | [] => []
  | .called i :: rest => i :: calls rest
  | .aborted :: rest => calls rest

/-- What follows the first call of `Abort`. -/
def afterAbort : List Step → List Step
  | [] => []
  | .called _ :: rest => afterAbort rest
  | .aborted :: rest => rest

/-- Sequencing of runs that keep a log: go on only after a normal return. -/
def Outcome.bindLog (r : Outcome × List Step)
    (f : Context → List Step → Outcome × List Step) : Outcome × List Step :=
  match r with
  | (.done c, log) => f c log
  | (.panicked c, log) => (.panicked c, log)
  | (.outOfFuel, log) => (.outOfFuel, log)

/-- `HandlerFunc.call`, keeping a log of the steps: the body of a handler run on `c`, where
`log` holds the steps so far; a call of `Abort` or `Fail` is written to the log. -/
def HandlerFunc.callLog (next : Context → List Step → Outcome × List Step) :
    HandlerFunc → Context → List Step → Outcome × List Step
  | .ret, c, log => (.done c, log)
  | .next k, c, log => Outcome.bindLog (next c log) (callLog next k)
  | .abort code k, c, log => callLog next k (c.Abort code) (log ++ [Step.aborted])
  | .fail code err k, c, log => callLog next k (c.Fail code err) (log ++ [Step.aborted])
  | .error err meta k, c, log => callLog next k (c.Error err meta) log
  | .set key item k, c, log => callLog next k (c.Set key item) log
  | .work tag k, c, log => callLog next k { c with trace := c.trace ++ [Event.work tag] } log
  | .read f, c, log => callLog next (f c) c log

/-- `Context.nextLoop`, keeping a log of the steps: each call `c.handlers[c.index](c)` is
written to the log. -/
def Context.nextLoopLog (handlers : List HandlerFunc) :
    Nat → Context → List Step → Outcome × List Step
  | 0, _, log => (.outOfFuel, log)
  | fuel + 1, c, log =>
    if c.index < int8 handlers.length then
      if c.index < 0 then (.panicked c, log)
      else
        match handlers[c.index.toNat]? with
        | none => (.panicked c, log)
        | some h =>
          Outcome.bindLog
            (h.callLog (fun c1 log1 => nextLoopLog handlers fuel c1.incr log1)
              (c.enter c.index.toNat) (log ++ [Step.called c.index.toNat]))
            (fun c2 log2 => nextLoopLog handlers fuel c2.incr log2)
    else (.done c, log)

/-- `Context.Next`, keeping a log of the steps of the dispatch. -/
def Context.NextLog (handlers : List HandlerFunc) (fuel : Nat) (c : Context) :
    Outcome × List Step :=
  Context.nextLoopLog handlers fuel c.incr []

/-- A chain of 64 handlers: 62 that do `c.Next()` and return, handler 62 aborts
(`c.Abort(401)`), handler 63 does `work 3`. -/
def abortAt62 : List HandlerFunc :=
  List.replicate 62 (HandlerFunc.next .ret) ++
    [HandlerFunc.abort 401 .ret, HandlerFunc.work 3 .ret]

end Gin

namespace Gin

/-! ## Outcomes do not depend on the bound -/

theorem HandlerFunc.call_mono (nx nx' : Context → Outcome)
    (hnx : ∀ c r, nx c = r → r ≠ Outcome.outOfFuel → nx' c = r) :
    ∀ (h : HandlerFunc) (c : Context) (r : Outcome),
      h.call nx c = r → r ≠ Outcome.outOfFuel → h.call nx' c = r := by
  intro h
  induction h with
  | ret => intro c r hr _; simpa [HandlerFunc.call] using hr
  | next k ih =>
    intro c r hr hne
    simp only [HandlerFunc.call] at hr ⊢
    cases hc : nx c with
    | done c1 =>
      rw [hnx c _ hc (by simp)]
      rw [hc] at hr
      simp only [Outcome.bind] at hr ⊢
      exact ih c1 r hr hne
    | panicked c1 =>
      rw [hnx c _ hc (by simp)]
      rw [hc] at hr
      simpa [Outcome.bind] using hr
    | outOfFuel =>
      rw [hc] at hr
      simp only [Outcome.bind] at hr
      exact absurd hr.symm hne
  | abort code k ih => intro c r hr hne; exact ih _ r hr hne
  | fail code err k ih => intro c r hr hne; exact ih _ r hr hne
  | error err m k ih => intro c r hr hne; exact ih _ r hr hne
  | set key item k ih => intro c r hr hne; exact ih _ r hr hne
  | work tag k ih => intro c r hr hne; exact ih _ r hr hne
  | read f ih => intro c r hr hne; exact ih c c r hr hne

theorem Context.nextLoop_mono (handlers : List HandlerFunc) :
    ∀ (fuel : Nat) (c : Context) (r : Outcome),
      Context.nextLoop handlers fuel c = r → r ≠ Outcome.outOfFuel →
        Context.nextLoop handlers (fuel + 1) c = r := by
  intro fuel
  induction fuel with
  | zero => intro c r hr hne; exact absurd (by simpa [Context.nextLoop] using hr.symm) hne
  | succ n ih =>
    intro c r hr hne
    rw [Context.nextLoop] at hr ⊢
    split at hr
    · rename_i hlt
      rw [if_pos hlt]
      split at hr
      · rename_i hneg
        rw [if_pos hneg]; exact hr
      · rename_i hneg
        rw [if_neg hneg]
        split at hr
        · exact hr
        · rename_i h hget
          have hmono : ∀ c r, (fun c1 : Context => Context.nextLoop handlers n c1.incr) c = r →
              r ≠ Outcome.outOfFuel →
              (fun c1 : Context => Context.nextLoop handlers (n + 1) c1.incr) c = r :=
            fun c r h1 h2 => ih c.incr r h1 h2
          cases hc : h.call (fun c1 => Context.nextLoop handlers n c1.incr)
              (c.enter c.index.toNat) with
          | done c2 =>
            rw [HandlerFunc.call_mono _ _ hmono h _ _ hc (by simp)]
            rw [hc] at hr
            simp only [Outcome.bind] at hr ⊢
            exact ih _ r hr hne
          | panicked c2 =>
            rw [HandlerFunc.call_mono _ _ hmono h _ _ hc (by simp)]
            rw [hc] at hr
            simpa [Outcome.bind] using hr
          | outOfFuel =>
            rw [hc] at hr
            simp only [Outcome.bind] at hr
            exact absurd hr.symm hne
    · rename_i hlt
      rw [if_neg hlt]; exact hr

theorem Context.nextLoop_mono_add (handlers : List HandlerFunc) (fuel : Nat) (c : Context)
    (r : Outcome) (hr : Context.nextLoop handlers fuel c = r) (hne : r ≠ Outcome.outOfFuel) :
    ∀ n, Context.nextLoop handlers (fuel + n) c = r := by
  intro n
  induction n with
  | zero => exact hr
  | succ n ih => exact Context.nextLoop_mono handlers (fuel + n) c r ih hne

theorem Context.Next_mono_add (handlers : List HandlerFunc) (fuel : Nat) (c : Context)
    (r : Outcome) (hr : Context.Next handlers fuel c = r) (hne : r ≠ Outcome.outOfFuel) :
    ∀ n, Context.Next handlers (fuel + n) c = r :=
  Context.nextLoop_mono_add handlers fuel c.incr r hr hne

/-! ## Dispatch: `Next` and `Abort` -/

/-- C1 (evaluation at 65 handlers).  In a dispatch started by `Next` on a fresh context over
the 65 handlers of `abortChain65`, handler 1 calls `Abort(401)`; the rest of its body
(`work 12`) and the code of handler 0 after its `Next` call (`work 11`) run, but handler 64
is called after the abort (`enter 64`, `work 13`), and this is so for every bound on the
execution that lets the dispatch return. -/
theorem abort_then_handler_64_runs (n : Nat) :
    Context.Next abortChain65 (4 + n) (createContext []) =
      Outcome.done
        { createContext [] with
          Writer := { header := [], statusWrites := [401], body := [] }
          index := 66
          trace := [Event.enter 0, Event.work 10, Event.enter 1, Event.work 12,
            Event.enter 64, Event.work 13, Event.work 11] } :=
  Context.Next_mono_add abortChain65 4 (createContext []) _ (by decide) (by simp) n

/-- C2 (evaluation at 65 handlers).  On a context whose index is `AbortIndex`, `Next` over a
list of 65 handlers calls the handler at index 64, for every bound on the execution that
lets the call return. -/
theorem next_at_abortIndex_calls_handler_64 (n : Nat) :
    Context.Next (List.replicate 64 HandlerFunc.ret ++ [HandlerFunc.work 7 .ret]) (2 + n)
        { createContext [] with index := AbortIndex } =
      Outcome.done
        { createContext [] with index := 65, trace := [Event.enter 64, Event.work 7] } :=
  Context.Next_mono_add _ 2 _ _ (by decide) (by simp) n

/-- C3 (counterexample).  With two handlers that both return at once, handler 0 returns
without calling `Next` or `Abort`, and handler 1 is called all the same. -/
theorem plain_return_does_not_stop_chain :
    HandlerFunc.plain HandlerFunc.ret ∧
      Context.Next [HandlerFunc.ret, HandlerFunc.ret] 3 (createContext []) =
        Outcome.done
          { createContext [] with index := 2, trace := [Event.enter 0, Event.enter 1] } := by
  refine ⟨trivial, ?_⟩
  decide

set_option maxRecDepth 4000 in
/-- C4 (evaluation at 128 handlers).  Over 128 handlers that return at once (none calls
`Abort`, none calls `Next`), `Next` on a fresh context returns without calling any handler:
`int8(128)` is negative. -/
theorem next_over_128_handlers_calls_none (n : Nat) :
    Context.Next (List.replicate 128 HandlerFunc.ret) (1 + n) (createContext []) =
      Outcome.done { createContext [] with index := 0 } :=
  Context.Next_mono_add _ 1 _ _ (by decide) (by simp) n

theorem int8_of_small (n : Nat) (h : n ≤ 127) : int8 (n : Int) = (n : Int) := by
  unfold int8
  omega

/-- With at most 64 handlers, `Next` on a context whose index is `AbortIndex` returns at once
and calls no handler. -/
theorem Context.Next_at_abortIndex_of_short (handlers : List HandlerFunc) (fuel : Nat)
    (c : Context) (hlen : handlers.length ≤ 64) (hidx : c.index = AbortIndex) :
    Context.Next handlers (fuel + 1) c = Outcome.done { c with index := 64 } := by
  have hincr : c.incr = { c with index := 64 } := by
    simp only [Context.incr, hidx]
    rfl
  have hs : int8 (handlers.length : Int) = (handlers.length : Int) :=
    int8_of_small _ (by omega)
  have hnot : ¬ ((64 : Int) < int8 (handlers.length : Int)) := by
    rw [hs]; omega
  rw [Context.Next, hincr, Context.nextLoop, if_neg hnot]

theorem HandlerFunc.call_of_plain :
    ∀ (h : HandlerFunc), h.plain → ∀ c : Context,
      ∃ c1, (∀ next, h.call next c = Outcome.done c1) ∧ c1.index = c.index ∧
        c1.Writer = c.Writer ∧ (h.quiet → c1.Errors = c.Errors) := by
  intro h
  induction h with
  | ret => intro _ c; exact ⟨c, fun _ => rfl, rfl, rfl, fun _ => rfl⟩
  | next k _ => intro hp; exact absurd hp (by simp [HandlerFunc.plain])
  | abort code k _ => intro hp; exact absurd hp (by simp [HandlerFunc.plain])
  | fail code err k _ => intro hp; exact absurd hp (by simp [HandlerFunc.plain])
  | error err m k ih =>
    intro hp c
    obtain ⟨c1, hcall, hidx, hw, _⟩ := ih hp (c.Error err m)
    exact ⟨c1, fun nx => hcall nx, hidx, hw, fun hq => absurd hq (by simp [HandlerFunc.quiet])⟩
  | set key item k ih =>
    intro hp c
    obtain ⟨c1, hcall, hidx, hw, he⟩ := ih hp (c.Set key item)
    exact ⟨c1, fun nx => hcall nx, hidx, hw, fun hq => he hq⟩
  | work tag k ih =>
    intro hp c
    obtain ⟨c1, hcall, hidx, hw, he⟩ := ih hp { c with trace := c.trace ++ [Event.work tag] }
    exact ⟨c1, fun nx => hcall nx, hidx, hw, fun hq => he hq⟩
  | read f ih =>
    intro hp c
    obtain ⟨c1, hcall, hidx, hw, he⟩ := ih c (hp c) c
    exact ⟨c1, fun nx => hcall nx, hidx, hw, fun hq => he (hq c)⟩

/-- C3 (as amended).  Let `handlers` have at most 127 entries and let the loop of `Next` stand
at index `k` with `k + 1 < len(handlers)`.  If handler `k` never calls `Next`, `Abort` or
`Fail`, then it returns (whatever `Next` would do) leaving the index at `k` and the response
writer untouched, and the loop goes on to call handler `k + 1`: not calling `Next` does not
stop the chain.  Between the return of handler `k` and the call of handler `k + 1` no error
record is appended, and a handler `k` that records no error leaves the error list as it
was. -/
theorem nextLoop_continues_after_plain_handler (handlers : List HandlerFunc) (k : Nat)
    (h h' : HandlerFunc) (c : Context) (fuel : Nat)
    (hlen : handlers.length ≤ 127) (hk : k + 1 < handlers.length)
    (hh : handlers[k]? = some h) (hh' : handlers[k + 1]? = some h')
    (hplain : h.plain) (hidx : c.index = (k : Int)) :
    ∃ c1, (∀ next, h.call next (c.enter k) = Outcome.done c1) ∧
      c1.index = (k : Int) ∧ c1.Writer = c.Writer ∧
      (c1.incr.enter (k + 1)).Errors = c1.Errors ∧
      (h.quiet → c1.Errors = c.Errors) ∧
      Context.nextLoop handlers (fuel + 2) c =
        (h'.call (Context.Next handlers fuel) (c1.incr.enter (k + 1))).bind
          (fun c2 => Context.nextLoop handlers fuel c2.incr) := by
  obtain ⟨c1, hcall, hidx1, hw, he⟩ := HandlerFunc.call_of_plain h hplain (c.enter k)
  have hidx1' : c1.index = (k : Int) := by rw [hidx1]; exact hidx
  have hs : int8 (handlers.length : Int) = (handlers.length : Int) := int8_of_small _ hlen
  have hincr : c1.incr.index = ((k + 1 : Nat) : Int) := by
    show int8 (c1.index + 1) = _
    rw [hidx1']
    have := int8_of_small (k + 1) (by omega)
    simpa using this
  refine ⟨c1, hcall, hidx1', hw, rfl, he, ?_⟩
  have step1 : Context.nextLoop handlers (fuel + 2) c =
      Context.nextLoop handlers (fuel + 1) c1.incr := by
    rw [Context.nextLoop]
    have h1 : c.index < int8 (handlers.length : Int) := by rw [hs, hidx]; omega
    have h2 : ¬ c.index < 0 := by rw [hidx]; omega
    have h3 : c.index.toNat = k := by rw [hidx]; simp
    rw [if_pos h1, if_neg h2, h3, hh]
    simp only [hcall, Outcome.bind]
  rw [step1, Context.nextLoop]
  have h1 : c1.incr.index < int8 (handlers.length : Int) := by rw [hs, hincr]; omega
  have h2 : ¬ c1.incr.index < 0 := by rw [hincr]; omega
  have h3 : c1.incr.index.toNat = k + 1 := by rw [hincr]; simp
  rw [if_pos h1, if_neg h2, h3, hh']
  rfl

/-- C3 (witness): the loop at index 0 over two handlers that return at once. -/
theorem nextLoop_continues_after_plain_handler_witness :
    ∃ c1, (∀ next, HandlerFunc.ret.call next ((createContext []).incr.enter 0) = Outcome.done c1) ∧
      c1.index = ((0 : Nat) : Int) ∧ c1.Writer = (createContext []).incr.Writer ∧
      (c1.incr.enter (0 + 1)).Errors = c1.Errors ∧
      (HandlerFunc.ret.quiet → c1.Errors = (createContext []).incr.Errors) ∧
      Context.nextLoop [HandlerFunc.ret, HandlerFunc.ret] (0 + 2) (createContext []).incr =
        (HandlerFunc.ret.call (Context.Next [HandlerFunc.ret, HandlerFunc.ret] 0)
            (c1.incr.enter (0 + 1))).bind
          (fun c2 => Context.nextLoop [HandlerFunc.ret, HandlerFunc.ret] 0 c2.incr) :=
  nextLoop_continues_after_plain_handler [HandlerFunc.ret, HandlerFunc.ret] 0
    HandlerFunc.ret HandlerFunc.ret (createContext []).incr 0
    (by decide) (by decide) rfl rfl trivial (by decide)

/-! ## Route groups -/

theorem lt_length_of_getElem? {α : Type} {l : List α} {i : Nat} {x : α} (h : l[i]? = some x) :
    i < l.length := by
  by_contra hcon
  have : l[i]? = none := List.getElem?_eq_none (by omega)
  rw [this] at h
  cases h

theorem getElem?_append_of_some {α : Type} {l : List α} (l' : List α) {i : Nat} {x : α}
    (h : l[i]? = some x) : (l ++ l')[i]? = some x := by
  rw [List.getElem?_append_left (lt_length_of_getElem? h)]
  exact h

theorem Engine.Group_of_some (e : Engine) (g : Nat) (group : RouterGroup)
    (component : GoString) (handlers : List HandlerFunc) (hg : e.groups[g]? = some group) :
    ∃ child : RouterGroup,
      e.Group g component handlers =
        some ({ e with groups := e.groups ++ [child] }, e.groups.length) ∧
      child.Handlers = group.Handlers ++ handlers ∧
      child.prefix_ = pathJoin group.prefix_ component ∧ child.parent = some g := by
  refine ⟨{ Handlers := group.Handlers ++ handlers
            parent := some g
            prefix_ := pathJoin group.prefix_ component }, ?_, rfl, rfl, rfl⟩
  simp [Engine.Group, hg, RouterGroup.combineHandlers]

theorem Engine.derive_spec (e : Engine) (d : Derivation) (hne : e.groups ≠ []) :
    ∃ child, e.derive d = some { e with groups := e.groups ++ [child] } := by
  have hpos : 0 < e.groups.length := List.length_pos.2 hne
  have hlt : d.parent % e.groups.length < e.groups.length := Nat.mod_lt _ hpos
  have hget : e.groups[d.parent % e.groups.length]? =
      some (e.groups[d.parent % e.groups.length]) := List.getElem?_eq_getElem hlt
  obtain ⟨child, hgrp, _⟩ := Engine.Group_of_some e _ _ d.component d.handlers hget
  exact ⟨child, by rw [Engine.derive, hgrp]⟩

theorem Engine.deriveAll_spec :
    ∀ (ds : List Derivation) (e : Engine), e.groups ≠ [] →
      ∃ extra, e.deriveAll ds = some { e with groups := e.groups ++ extra } := by
  intro ds
  induction ds with
  | nil => intro e _; exact ⟨[], by simp [Engine.deriveAll]⟩
  | cons d ds ih =>
    intro e hne
    obtain ⟨child, hd⟩ := Engine.derive_spec e d hne
    obtain ⟨extra, hrest⟩ := ih { e with groups := e.groups ++ [child] } (by simp)
    refine ⟨child :: extra, ?_⟩
    rw [Engine.deriveAll, hd]
    simp only [hrest, List.append_assoc, List.singleton_append]

theorem Engine.Use_other (e : Engine) (g : Nat) (group : RouterGroup)
    (middlewares : List HandlerFunc) (hg : e.groups[g]? = some group) :
    ∃ e1 parent, e.Use g middlewares = some e1 ∧ e1.groups[g]? = some parent ∧
      parent.Handlers = group.Handlers ++ middlewares ∧ parent.prefix_ = group.prefix_ ∧
      e1.routes = e.routes ∧ ∀ c, c ≠ g → e1.groups[c]? = e.groups[c]? := by
  have hlt : g < e.groups.length := lt_length_of_getElem? hg
  let parent : RouterGroup := { group with Handlers := group.Handlers ++ middlewares }
  refine ⟨{ e with groups := e.groups.set g parent }, parent, ?_, ?_, rfl, rfl, rfl, ?_⟩
  · simp [Engine.Use, hg]
  · simp [List.getElem?_set, hlt]
  · intro c hc
    simp [List.getElem?_set, Ne.symm hc]

theorem Engine.useAll_spec :
    ∀ (uses : List (List HandlerFunc)) (e : Engine) (g : Nat) (group : RouterGroup),
      e.groups[g]? = some group →
      ∃ e1 parent, e.useAll g uses = some e1 ∧ e1.groups[g]? = some parent ∧
        parent.Handlers = group.Handlers ++ uses.flatten ∧ parent.prefix_ = group.prefix_ ∧
        e1.routes = e.routes ∧ ∀ c, c ≠ g → e1.groups[c]? = e.groups[c]? := by
  intro uses
  induction uses with
  | nil =>
    intro e g group hg
    exact ⟨e, group, rfl, hg, by simp, rfl, rfl, fun _ _ => rfl⟩
  | cons ms rest ih =>
    intro e g group hg
    obtain ⟨e1, parent, huse, hp, hh, hpre, hr, hother⟩ := Engine.Use_other e g group ms hg
    obtain ⟨e2, parent2, hrest, hp2, hh2, hpre2, hr2, hother2⟩ := ih e1 g parent hp
    refine ⟨e2, parent2, ?_, hp2, ?_, ?_, ?_, ?_⟩
    · rw [Engine.useAll, huse]
      exact hrest
    · rw [hh2, hh]
      simp
    · rw [hpre2, hpre]
    · rw [hr2, hr]
    · intro c hc
      rw [hother2 c hc, hother c hc]

/-- C6.  Let `g` be a group of an engine and `c = g.Group(component, hs...)` its new child;
afterwards other groups are derived and `g.Use(...)` is called any number of times.  Then `c`
is another group than `g`, `c.Handlers` is `g.Handlers ++ hs` (with `g.Handlers` as it was
when `c` was derived) both before and after the `Use` calls, while `g.Handlers` has grown by
what the calls added.  A call of `Handle` on `c` with handlers `r` afterwards hands the path
to the router: when the router accepts it the route is registered and captures exactly
`g.Handlers ++ hs ++ r`, when it refuses the call panics and nothing is registered; an added
handler occurs in the captured list only if it occurs in the old `g.Handlers`, in `hs` or in
`r`. -/
theorem use_after_group_keeps_child (e : Engine) (g : Nat) (group : RouterGroup)
    (component : GoString) (hs : List HandlerFunc) (between : List Derivation)
    (uses : List (List HandlerFunc)) (hg : e.groups[g]? = some group) :
    ∃ e1 c child e2 e3,
      e.Group g component hs = some (e1, c) ∧ c ≠ g ∧
      e1.groups[c]? = some child ∧ child.Handlers = group.Handlers ++ hs ∧
      e1.deriveAll between = some e2 ∧ e2.useAll g uses = some e3 ∧
      e3.groups[c]? = some child ∧
      (∃ parent, e3.groups[g]? = some parent ∧
        parent.Handlers = group.Handlers ++ uses.flatten) ∧
      ∀ (router : Router) (method p : GoString) (r : List HandlerFunc),
        e3.Handle router c method p r =
          (if router e3.registered method (pathJoin child.prefix_ p) = true then
            some { e3 with routes := e3.routes ++
              [{ method := method, path := pathJoin child.prefix_ p,
                 handlers := group.Handlers ++ hs ++ r }] }
          else none) ∧
        ∀ m ∈ uses.flatten, m ∈ group.Handlers ++ hs ++ r →
          m ∈ group.Handlers ∨ m ∈ hs ∨ m ∈ r := by
  have hlt : g < e.groups.length := lt_length_of_getElem? hg
  obtain ⟨child, hgrp, hch, _⟩ := Engine.Group_of_some e g group component hs hg
  have hne : e.groups.length ≠ g := by omega
  have hc1 : ({ e with groups := e.groups ++ [child] } : Engine).groups[e.groups.length]? =
      some child := by simp
  obtain ⟨extra, hbetween⟩ :=
    Engine.deriveAll_spec between { e with groups := e.groups ++ [child] } (by simp)
  have hg2 : ({ e with groups := e.groups ++ [child] ++ extra } : Engine).groups[g]? =
      some group :=
    getElem?_append_of_some extra (getElem?_append_of_some [child] hg)
  have hc2 : ({ e with groups := e.groups ++ [child] ++ extra } : Engine).groups[
      e.groups.length]? = some child :=
    getElem?_append_of_some extra hc1
  obtain ⟨e3, parent, huse, hparent, hph, _, _, hother⟩ :=
    Engine.useAll_spec uses _ g group hg2
  have hc3 : e3.groups[e.groups.length]? = some child := by
    rw [hother _ hne]; exact hc2
  refine ⟨_, _, child, _, e3, hgrp, hne, hc1, hch, hbetween, huse, hc3,
    ⟨parent, hparent, hph⟩, ?_⟩
  intro router method p r
  refine ⟨?_, ?_⟩
  · simp [Engine.Handle, hc3, RouterGroup.combineHandlers, hch]
  · intro m _ hm
    simpa [List.mem_append, or_assoc] using hm

/-- C6 (witness): the root of a new engine, a child `/v1` with one handler, then `Use` on the
root. -/
theorem use_after_group_keeps_child_witness :
    ∃ e1 c child e2 e3,
      New.Group 0 (str "/v1") [HandlerFunc.work 1 .ret] = some (e1, c) ∧ c ≠ 0 ∧
      e1.groups[c]? = some child ∧
      child.Handlers = ([] : List HandlerFunc) ++ [HandlerFunc.work 1 .ret] ∧
      e1.deriveAll [] = some e2 ∧ e2.useAll 0 [[HandlerFunc.work 2 .ret]] = some e3 ∧
      e3.groups[c]? = some child ∧
      (∃ parent, e3.groups[0]? = some parent ∧
        parent.Handlers = ([] : List HandlerFunc) ++ [[HandlerFunc.work 2 .ret]].flatten) ∧
      ∀ (router : Router) (method p : GoString) (r : List HandlerFunc),
        e3.Handle router c method p r =
          (if router e3.registered method (pathJoin child.prefix_ p) = true then
            some { e3 with routes := e3.routes ++
              [{ method := method, path := pathJoin child.prefix_ p,
                 handlers := ([] : List HandlerFunc) ++ [HandlerFunc.work 1 .ret] ++ r }] }
          else none) ∧
        ∀ m ∈ [[HandlerFunc.work 2 .ret]].flatten,
          m ∈ ([] : List HandlerFunc) ++ [HandlerFunc.work 1 .ret] ++ r →
            m ∈ ([] : List HandlerFunc) ∨ m ∈ [HandlerFunc.work 1 .ret] ∨ m ∈ r :=
  use_after_group_keeps_child New 0 { Handlers := [], prefix_ := [], parent := none }
    (str "/v1") [HandlerFunc.work 1 .ret] [] [[HandlerFunc.work 2 .ret]] rfl

/-! ## The order on strings -/

theorem strLess_irrefl : ∀ a : GoString, strLess a a = false := by
  intro a
  induction a with
  | nil => rfl
  | cons x xs ih => simp [strLess, ih]

theorem strLess_asymm : ∀ a b : GoString, strLess a b = true → strLess b a = false := by
  intro a
  induction a with
  | nil => intro b; cases b <;> simp [strLess]
  | cons x xs ih =>
    intro b
    cases b with
    | nil => simp [strLess]
    | cons y ys =>
      simp only [strLess]
      intro h
      split_ifs at h ⊢ with h1 h2 h3
      all_goals first | omega | rfl | exact ih ys h

theorem strLess_negtrans :
    ∀ a b c : GoString, strLess a c = true → strLess a b = true ∨ strLess b c = true := by
  intro a
  induction a with
  | nil =>
    intro b c
    cases b <;> cases c <;> simp [strLess]
  | cons x xs ih =>
    intro b c
    cases c with
    | nil => simp [strLess]
    | cons z zs =>
      cases b with
      | nil => simp [strLess]
      | cons y ys =>
        simp only [strLess]
        intro h
        split_ifs at h ⊢ with h1 h2 h3 h4 h5 h6 h7
        all_goals first | omega | simp | exact ih ys zs h

theorem strLess_connected :
    ∀ a b : GoString, strLess a b = false → strLess b a = false → a = b := by
  intro a
  induction a with
  | nil => intro b; cases b <;> simp [strLess]
  | cons x xs ih =>
    intro b
    cases b with
    | nil => simp [strLess]
    | cons y ys =>
      simp only [strLess]
      intro h h'
      split_ifs at h h' with h1 h2
      have hxy : x = y := by omega
      rw [hxy, ih ys h h']

/-! ## The credential store -/

theorem processCredentials.loop_ok :
    ∀ (accounts : Accounts) (pairs : Pairs),
      (∀ a ∈ accounts, a.User ≠ [] ∧ a.Password ≠ []) →
      processCredentials.loop accounts pairs = Except.ok (pairs ++ accounts.map Account.pair) := by
  intro accounts
  induction accounts with
  | nil => intro pairs _; simp [processCredentials.loop]
  | cons a rest ih =>
    intro pairs hall
    have ha := hall a (List.mem_cons_self a rest)
    have hrest : ∀ b ∈ rest, b.User ≠ [] ∧ b.Password ≠ [] :=
      fun b hb => hall b (List.mem_cons_of_mem a hb)
    rw [processCredentials.loop, if_neg (by simp [ha.1, ha.2]), ih _ hrest]
    simp [Account.pair]

theorem processCredentials.loop_error :
    ∀ (accounts : Accounts) (pairs : Pairs),
      (∃ a ∈ accounts, a.User = [] ∨ a.Password = []) →
      processCredentials.loop accounts pairs = Except.error (str "User or password is empty") := by
  intro accounts
  induction accounts with
  | nil => intro pairs h; obtain ⟨a, ha, _⟩ := h; cases ha
  | cons a rest ih =>
    intro pairs h
    rw [processCredentials.loop]
    by_cases hbad : a.User.length = 0 ∨ a.Password.length = 0
    · rw [if_pos hbad]
    · rw [if_neg hbad]
      apply ih
      obtain ⟨b, hb, hempty⟩ := h
      rcases List.mem_cons.1 hb with rfl | hb'
      · exact absurd (by simpa using hempty) hbad
      · exact ⟨b, hb', hempty⟩

theorem processCredentials_ok_iff (accounts : Accounts) (pairs : Pairs) :
    processCredentials accounts = Except.ok pairs ↔
      accounts ≠ [] ∧ (∀ a ∈ accounts, a.User ≠ [] ∧ a.Password ≠ []) ∧
        pairs = sortPairs (accounts.map Account.pair) := by
  by_cases hnil : accounts = []
  · subst hnil
    simp [processCredentials]
  · have hlen : ¬ accounts.length = 0 := by simpa using hnil
    by_cases hall : ∀ a ∈ accounts, a.User ≠ [] ∧ a.Password ≠ []
    · rw [processCredentials, if_neg hlen, processCredentials.loop_ok accounts [] hall]
      simp only [List.nil_append, Except.ok.injEq]
      constructor
      · intro h; exact ⟨hnil, hall, h.symm⟩
      · intro h; exact h.2.2.symm
    · have hex : ∃ a ∈ accounts, a.User = [] ∨ a.Password = [] := by
        by_contra hcon
        apply hall
        intro a ha
        constructor
        · intro hu; exact hcon ⟨a, ha, Or.inl hu⟩
        · intro hp; exact hcon ⟨a, ha, Or.inr hp⟩
      rw [processCredentials, if_neg hlen, processCredentials.loop_error accounts [] hex]
      constructor
      · intro h; cases h
      · intro h; exact absurd h.2.1 hall

theorem sortSearch.loop_spec (f : Nat → Bool) (n : Nat)
    (hmono : ∀ i j, i ≤ j → j < n → f i = true → f j = true) :
    ∀ (fuel i j : Nat), i ≤ j → j ≤ n → j - i ≤ fuel →
      (∀ k, k < i → f k = false) → (∀ k, j ≤ k → k < n → f k = true) →
      sortSearch.loop f fuel i j ≤ n ∧
        (∀ k, k < sortSearch.loop f fuel i j → f k = false) ∧
        (sortSearch.loop f fuel i j < n → f (sortSearch.loop f fuel i j) = true) := by
  intro fuel
  induction fuel with
  | zero =>
    intro i j hij hjn hfuel hlow hhigh
    have : i = j := by omega
    subst this
    simp only [sortSearch.loop]
    exact ⟨hjn, hlow, fun hlt => hhigh i (le_refl i) hlt⟩
  | succ fuel ih =>
    intro i j hij hjn hfuel hlow hhigh
    rw [sortSearch.loop]
    by_cases hlt : i < j
    · rw [if_pos hlt]
      have hh1 : i ≤ (i + j) / 2 := by omega
      have hh2 : (i + j) / 2 < j := by omega
      cases hf : f ((i + j) / 2) with
      | false =>
        simp only [hf, Bool.not_false, if_true]
        apply ih ((i + j) / 2 + 1) j (by omega) hjn (by omega) _ hhigh
        intro k hk
        cases hfk : f k with
        | false => rfl
        | true =>
          have := hmono k ((i + j) / 2) (by omega) (by omega) hfk
          rw [hf] at this
          cases this
      | true =>
        simp only [hf, Bool.not_true, Bool.false_eq_true, if_false]
        apply ih i ((i + j) / 2) hh1 (by omega) (by omega) hlow
        intro k hk hkn
        exact hmono ((i + j) / 2) k hk hkn hf
    · rw [if_neg hlt]
      have : i = j := by omega
      subst this
      exact ⟨hjn, hlow, fun hlt => hhigh i (le_refl i) hlt⟩

/-- The bound in `sortSearch.loop` is never the reason the loop stops: once it is at least
`j - i`, one more unit changes nothing, whatever `f` is. -/
theorem sortSearch.loop_fuel (f : Nat → Bool) :
    ∀ (fuel i j : Nat), j - i ≤ fuel →
      sortSearch.loop f (fuel + 1) i j = sortSearch.loop f fuel i j := by
  intro fuel
  induction fuel with
  | zero =>
    intro i j h
    have hnot : ¬ i < j := by omega
    simp [sortSearch.loop, hnot]
  | succ fuel ih =>
    intro i j h
    have hstep : sortSearch.loop f (fuel + 1) i j =
        if i < j then
          if (!f ((i + j) / 2)) = true then sortSearch.loop f fuel ((i + j) / 2 + 1) j
          else sortSearch.loop f fuel i ((i + j) / 2)
        else i := by rw [sortSearch.loop]
    rw [sortSearch.loop, hstep]
    by_cases hlt : i < j
    · simp only [if_pos hlt]
      cases hf : f ((i + j) / 2) with
      | false =>
        simp only [hf, Bool.not_false, if_true]
        exact ih _ _ (by omega)
      | true =>
        simp only [hf, Bool.not_true, Bool.false_eq_true, if_false]
        exact ih _ _ (by omega)
    · simp only [if_neg hlt]

theorem sortSearch_spec (f : Nat → Bool) (n : Nat)
    (hmono : ∀ i j, i ≤ j → j < n → f i = true → f j = true) :
    sortSearch n f ≤ n ∧ (∀ k, k < sortSearch n f → f k = false) ∧
      (sortSearch n f < n → f (sortSearch n f) = true) :=
  sortSearch.loop_spec f n hmono n 0 n (Nat.zero_le n) (le_refl n) (by omega)
    (fun k hk => absurd hk (Nat.not_lt_zero k)) (fun k hk hkn => absurd hkn (by omega))

theorem sortPairs_sorted (pairs : Pairs) :
    List.Sorted (fun p q : BasicAuthPair => q.Less p = false) (sortPairs pairs) := by
  haveI : IsTotal BasicAuthPair (fun p q => q.Less p = false) :=
    ⟨fun p q => by
      cases h : q.Less p with
      | false => exact Or.inl rfl
      | true => exact Or.inr (strLess_asymm _ _ h)⟩
  haveI : IsTrans BasicAuthPair (fun p q => q.Less p = false) :=
    ⟨fun p q t hpq hqt => by
      cases h : t.Less p with
      | false => rfl
      | true =>
        rcases strLess_negtrans t.Code q.Code p.Code h with h1 | h1
        · exact absurd h1 (by simpa [BasicAuthPair.Less] using hqt)
        · exact absurd h1 (by simpa [BasicAuthPair.Less] using hpq)⟩
  exact List.sorted_insertionSort _ pairs

theorem sortPairs_perm (pairs : Pairs) : (sortPairs pairs).Perm pairs :=
  List.perm_insertionSort _ pairs

/-- In a list ordered by `Code`, looking up the `Code` of an entry returns the `User` of an
entry with that `Code`. -/
theorem searchCredential_of_sorted (pairs : Pairs) (auth : GoString)
    (hsorted : List.Sorted (fun p q : BasicAuthPair => q.Less p = false) pairs)
    (hauth : auth ≠ []) (hmem : ∃ p ∈ pairs, p.Code = auth) :
    ∃ p ∈ pairs, p.Code = auth ∧ searchCredential pairs auth = p.User := by
  obtain ⟨p0, hp0, hcode0⟩ := hmem
  obtain ⟨q, hq, hqget⟩ := List.getElem_of_mem hp0
  have hpw : ∀ i j (hi : i < pairs.length) (hj : j < pairs.length), i < j →
      strLess pairs[j].Code pairs[i].Code = false := by
    intro i j hi hj hij
    exact (List.pairwise_iff_getElem.1 hsorted) i j hi hj hij
  have hcodeAt : ∀ i (hi : i < pairs.length), pairs.codeAt i = pairs[i].Code := by
    intro i hi
    simp [Pairs.codeAt, List.getElem?_eq_getElem hi]
  have hmono : ∀ i j, i ≤ j → j < pairs.length →
      (fun i => !strLess (pairs.codeAt i) auth) i = true →
      (fun i => !strLess (pairs.codeAt i) auth) j = true := by
    intro i j hij hj hfi
    have hi : i < pairs.length := by omega
    simp only [hcodeAt i hi, hcodeAt j hj, Bool.not_eq_true'] at hfi ⊢
    rcases Nat.eq_or_lt_of_le hij with heq | hlt
    · subst heq; exact hfi
    · cases h : strLess pairs[j].Code auth with
      | false => rfl
      | true =>
        rcases strLess_negtrans _ pairs[i].Code _ h with h1 | h1
        · rw [hpw i j hi hj hlt] at h1; cases h1
        · rw [hfi] at h1; cases h1
  obtain ⟨_, hbelow, hat⟩ := sortSearch_spec _ pairs.length hmono
  have hfq : (fun i => !strLess (pairs.codeAt i) auth) q = true := by
    simp only [hcodeAt q hq, hqget, hcode0, strLess_irrefl, Bool.not_false]
  have hrq : sortSearch pairs.length (fun i => !strLess (pairs.codeAt i) auth) ≤ q := by
    by_contra hcon
    have hfalse := hbelow q (by omega)
    have htrue : (!strLess (pairs.codeAt q) auth) = true := hfq
    rw [htrue] at hfalse
    cases hfalse
  have hr : sortSearch pairs.length (fun i => !strLess (pairs.codeAt i) auth) < pairs.length := by
    omega
  have hfr := hat hr
  simp only [hcodeAt _ hr, Bool.not_eq_true'] at hfr
  have hle : strLess auth
      pairs[sortSearch pairs.length (fun i => !strLess (pairs.codeAt i) auth)].Code = false := by
    rcases Nat.eq_or_lt_of_le hrq with heq | hlt
    · have : pairs[sortSearch pairs.length (fun i => !strLess (pairs.codeAt i) auth)] = p0 := by
        rw [← hqget]; congr 1
      rw [this, hcode0]; exact strLess_irrefl auth
    · have := hpw _ q hr hq hlt
      rw [hqget, hcode0] at this
      exact this
  have heq : pairs[sortSearch pairs.length (fun i => !strLess (pairs.codeAt i) auth)].Code
      = auth := strLess_connected _ _ hfr hle
  refine ⟨pairs[sortSearch pairs.length (fun i => !strLess (pairs.codeAt i) auth)],
    List.getElem_mem _, heq, ?_⟩
  have hlen : ¬ auth.length = 0 := by simpa using hauth
  simp only [searchCredential, if_neg hlen, List.getElem?_eq_getElem hr, ConstantTimeCompare,
    heq, if_true]

theorem Account.code_ne_nil (a : Account) : a.code ≠ [] := by
  simp [Account.code, str]

/-- Looking up the token of an account of an accepted list returns the `User` of an account
of the list that has this token. -/
theorem searchCredential_of_accepted (accounts : Accounts) (pairs : Pairs) (a : Account)
    (hacc : processCredentials accounts = Except.ok pairs) (ha : a ∈ accounts) :
    ∃ b ∈ accounts, b.code = a.code ∧ searchCredential pairs a.code = b.User := by
  obtain ⟨_, _, hpairs⟩ := (processCredentials_ok_iff accounts pairs).1 hacc
  subst hpairs
  have hperm := sortPairs_perm (accounts.map Account.pair)
  have hin : a.pair ∈ sortPairs (accounts.map Account.pair) :=
    hperm.mem_iff.2 (List.mem_map_of_mem Account.pair ha)
  obtain ⟨p, hp, hcode, hres⟩ :=
    searchCredential_of_sorted _ a.code (sortPairs_sorted _) a.code_ne_nil ⟨a.pair, hin, rfl⟩
  obtain ⟨b, hb, hbp⟩ := List.mem_map.1 (hperm.mem_iff.1 hp)
  refine ⟨b, hb, ?_, ?_⟩
  · rw [← hcode, ← hbp]; rfl
  · rw [hres, ← hbp]; rfl

/-- C7 (counterexample).  The list of the two accounts (`a`, `b:c`) and (`a:b`, `c`) is
accepted by `processCredentials`; both accounts have the token of `a:b:c`, and looking up the
token of the second account returns `a`, which is not its `User` `a:b`. -/
theorem colliding_accounts_return_other_user :
    ∃ pairs, processCredentials [colonFirst, colonSecond] = Except.ok pairs ∧
      colonSecond ∈ [colonFirst, colonSecond] ∧
      searchCredential pairs colonSecond.code = str "a" ∧
      searchCredential pairs colonSecond.code ≠ colonSecond.User :=
  ⟨[colonFirst.pair, colonSecond.pair], by rfl, by decide, by decide, by decide⟩

/-- C7 (as amended).  For every account list accepted by `processCredentials` and every
account `a` of the list such that the accounts of the list with the same token as `a` have
the same `User` as `a`: `searchCredential` on the built pairs with the token
`"Basic " + base64(a.User + ":" + a.Password)` returns `a.User`. -/
theorem searchCredential_finds_account (accounts : Accounts) (pairs : Pairs) (a : Account)
    (hacc : processCredentials accounts = Except.ok pairs) (ha : a ∈ accounts)
    (huniq : ∀ b ∈ accounts, b.code = a.code → b.User = a.User) :
    searchCredential pairs a.code = a.User := by
  obtain ⟨b, hb, hcode, hres⟩ := searchCredential_of_accepted accounts pairs a hacc ha
  rw [hres]
  exact huniq b hb hcode

/-- C7 (witness): the store of alice and bob returns `alice` for alice's token. -/
theorem searchCredential_finds_account_witness :
    processCredentials [alice, bob] = Except.ok [alice.pair, bob.pair] ∧
      searchCredential [alice.pair, bob.pair] alice.code = str "alice" :=
  ⟨by rfl, searchCredential_finds_account [alice, bob] [alice.pair, bob.pair] alice (by rfl)
    (by decide) (by decide)⟩

/-- C8.  For every account with non-empty `User` and `Password`, the store built from that
single account is accepted, and looking up the account's own token in it returns the
account's `User`. -/
theorem single_account_round_trip (a : Account) (hu : a.User ≠ []) (hp : a.Password ≠ []) :
    ∃ pairs, processCredentials [a] = Except.ok pairs ∧
      searchCredential pairs a.code = a.User := by
  have hacc : processCredentials [a] = Except.ok (sortPairs ([a].map Account.pair)) :=
    (processCredentials_ok_iff [a] _).2
      ⟨by simp, fun b hb => by rw [List.mem_singleton.1 hb]; exact ⟨hu, hp⟩, rfl⟩
  obtain ⟨b, hb, _, hres⟩ :=
    searchCredential_of_accepted [a] _ a hacc (List.mem_singleton_self a)
  rw [List.mem_singleton.1 hb] at hres
  exact ⟨_, hacc, hres⟩

/-- C8 (witness): the single account alice. -/
theorem single_account_round_trip_witness :
    ∃ pairs, processCredentials [alice] = Except.ok pairs ∧
      searchCredential pairs alice.code = alice.User :=
  single_account_round_trip alice (by decide) (by decide)

/-- C9.  For every list of pairs, ordered or not, and every presented string `auth`: if
`searchCredential` returns a non-empty user, then `auth` is non-empty and some entry of the
list has `Code` equal to `auth` and that `User`; the result is empty for the empty `auth`,
and it is empty for every `auth` that differs from every stored `Code`. -/
theorem searchCredential_sound (pairs : Pairs) (auth : GoString) :
    (searchCredential pairs auth ≠ [] →
        auth ≠ [] ∧ ∃ p ∈ pairs, p.Code = auth ∧ p.User = searchCredential pairs auth) ∧
      searchCredential pairs [] = [] ∧
      ((∀ p ∈ pairs, p.Code ≠ auth) → searchCredential pairs auth = []) := by
  have key : searchCredential pairs auth ≠ [] →
      auth ≠ [] ∧ ∃ p ∈ pairs, p.Code = auth ∧ p.User = searchCredential pairs auth := by
    intro hne
    by_cases hlen : auth.length = 0
    · exact absurd (by simp [searchCredential, hlen]) hne
    · refine ⟨by simpa using hlen, ?_⟩
      simp only [searchCredential, if_neg hlen] at hne ⊢
      cases hget : pairs[sortSearch pairs.length (fun i => !strLess (pairs.codeAt i) auth)]? with
      | none => rw [hget] at hne; exact absurd rfl hne
      | some p =>
        rw [hget] at hne
        simp only [ConstantTimeCompare] at hne ⊢
        by_cases heq : p.Code = auth
        · exact ⟨p, List.getElem?_mem hget, heq, by simp [heq]⟩
        · exact absurd (by simp [heq]) hne
  refine ⟨key, by simp [searchCredential], ?_⟩
  intro hnone
  by_contra hne
  obtain ⟨_, p, hp, hcode, _⟩ := key hne
  exact hnone p hp hcode

/-- C9 (witness): in the list alice, bob the token of bob is found, and it is the `Code` of
an entry whose `User` is the result. -/
theorem searchCredential_sound_witness :
    searchCredential [alice.pair, bob.pair] bob.code ≠ [] ∧
      bob.code ≠ [] ∧
      ∃ p ∈ [alice.pair, bob.pair],
        p.Code = bob.code ∧ p.User = searchCredential [alice.pair, bob.pair] bob.code :=
  ⟨by decide, (searchCredential_sound [alice.pair, bob.pair] bob.code).1 (by decide)⟩

/-- C10.  For every account list, `processCredentials` returns an error if and only if the
list is empty or some account has an empty `User` or an empty `Password`, and it returns
pairs if and only if neither is the case; it never returns both. -/
theorem processCredentials_error_iff (accounts : Accounts) :
    ((∃ err, processCredentials accounts = Except.error err) ↔
        (accounts = [] ∨ ∃ a ∈ accounts, a.User = [] ∨ a.Password = [])) ∧
      ((∃ pairs, processCredentials accounts = Except.ok pairs) ↔
        ¬ (accounts = [] ∨ ∃ a ∈ accounts, a.User = [] ∨ a.Password = [])) := by
  have hok : (∃ pairs, processCredentials accounts = Except.ok pairs) ↔
      ¬ (accounts = [] ∨ ∃ a ∈ accounts, a.User = [] ∨ a.Password = []) := by
    constructor
    · rintro ⟨pairs, h⟩
      obtain ⟨hne, hall, _⟩ := (processCredentials_ok_iff accounts pairs).1 h
      rintro (hnil | ⟨a, ha, hu | hp⟩)
      · exact hne hnil
      · exact (hall a ha).1 hu
      · exact (hall a ha).2 hp
    · intro h
      refine ⟨_, (processCredentials_ok_iff accounts _).2 ⟨fun hnil => h (Or.inl hnil), ?_, rfl⟩⟩
      intro a ha
      exact ⟨fun hu => h (Or.inr ⟨a, ha, Or.inl hu⟩), fun hp => h (Or.inr ⟨a, ha, Or.inr hp⟩)⟩
  refine ⟨?_, hok⟩
  constructor
  · rintro ⟨err, herr⟩
    by_contra hcon
    obtain ⟨pairs, hpairs⟩ := hok.2 hcon
    rw [herr] at hpairs
    cases hpairs
  · intro h
    cases hres : processCredentials accounts with
    | error err => exact ⟨err, rfl⟩
    | ok pairs => exact absurd h (hok.1 ⟨pairs, hres⟩)

/-! ## The built store -/

/-- C11.  For every account list accepted by `processCredentials`, the returned pairs are in
non-decreasing byte-wise order of `Code` (no later entry has a smaller `Code` than an earlier
one), they are a permutation of the list that maps each account `a` to the pair
(`"Basic " + base64(a.User + ":" + a.Password)`, `a.User`), and there is one entry per
account. -/
theorem processCredentials_sorted_perm (accounts : Accounts) (pairs : Pairs)
    (hacc : processCredentials accounts = Except.ok pairs) :
    List.Pairwise (fun p q : BasicAuthPair => strLess q.Code p.Code = false) pairs ∧
      pairs.Perm (accounts.map
        (fun a => ({ Code := str "Basic " ++ base64Encode (a.User ++ str ":" ++ a.Password),
                     User := a.User } : BasicAuthPair))) ∧
      pairs.length = accounts.length := by
  obtain ⟨_, _, hpairs⟩ := (processCredentials_ok_iff accounts pairs).1 hacc
  subst hpairs
  refine ⟨sortPairs_sorted _, sortPairs_perm _, ?_⟩
  rw [(sortPairs_perm _).length_eq, List.length_map]

/-- C11 (witness): the store of bob and alice, given in this order, is alice then bob. -/
theorem processCredentials_sorted_perm_witness :
    List.Pairwise (fun p q : BasicAuthPair => strLess q.Code p.Code = false)
        [alice.pair, bob.pair] ∧
      [alice.pair, bob.pair].Perm ([bob, alice].map
        (fun a => ({ Code := str "Basic " ++ base64Encode (a.User ++ str ":" ++ a.Password),
                     User := a.User } : BasicAuthPair))) ∧
      [alice.pair, bob.pair].length = [bob, alice].length :=
  processCredentials_sorted_perm [bob, alice] [alice.pair, bob.pair] (by rfl)

/-! ## `Fail`, `Abort`, `Error`, `Get` and `Set` -/

/-- C13.  For every context, status code and error, the state after `Fail(code, err)` is the
state after `Error(err, "Operation aborted")` followed by `Abort(code)`, and it is the state
the spec describes: the error list is the old list with exactly one record appended
(`Message = err.Error()`, `Meta = "Operation aborted"`), the status `code` is written after
the earlier status writes, the index is `AbortIndex`, and nothing else has changed. -/
theorem Fail_eq_Error_then_Abort (c : Context) (code : Int) (err : GoString) :
    c.Fail code err = (c.Error err (Any.text (str "Operation aborted"))).Abort code ∧
      c.Fail code err = c.failSpec code err ∧
      (c.Fail code err).Errors =
        c.Errors ++ [{ Message := err, Meta := Any.text (str "Operation aborted") }] ∧
      (c.Fail code err).Writer.statusWrites = c.Writer.statusWrites ++ [code] ∧
      (c.Fail code err).index = AbortIndex ∧
      (c.Fail code err).Keys = c.Keys := by
  refine ⟨rfl, ?_, rfl, rfl, rfl, rfl⟩
  simp only [Context.Fail, Context.Error, Context.Abort, Context.failSpec,
    ResponseWriter.WriteHeader, AbortIndex]
  congr 1

/-- C14.  For every context, every status code and every response wrapper `w` whose
underlying writer is the writer of the context: after `Abort(code)`, which reaches the
wrapper as `w.WriteHeader(code)`, the wrapper reports `Status() = code` and
`Written() = true` and wraps the writer the context now has; the index is `AbortIndex`; the
error list, the key/value table, the request data and the observation log are unchanged. -/
theorem Abort_frame (c : Context) (w : responseWriter) (code : Int)
    (hw : w.ResponseWriter = c.Writer) :
    (w.WriteHeader code).Status = code ∧ (w.WriteHeader code).Written = true ∧
      (w.WriteHeader code).ResponseWriter = (c.Abort code).Writer ∧
      (c.Abort code).Writer.statusWrites = c.Writer.statusWrites ++ [code] ∧
      (c.Abort code).index = AbortIndex ∧
      (c.Abort code).Errors = c.Errors ∧ (c.Abort code).Keys = c.Keys ∧
      (c.Abort code).authorization = c.authorization ∧ (c.Abort code).trace = c.trace := by
  refine ⟨rfl, rfl, ?_, rfl, rfl, rfl, rfl, rfl, rfl⟩
  simp only [responseWriter.WriteHeader, Context.Abort, hw]

/-- C14 (witness): a fresh context behind a fresh wrapper, `Abort(401)`. -/
theorem Abort_frame_witness :
    ((writtenOK.reset (createContext []).Writer).WriteHeader 401).Status = 401 ∧
      ((writtenOK.reset (createContext []).Writer).WriteHeader 401).Written = true ∧
      ((writtenOK.reset (createContext []).Writer).WriteHeader 401).ResponseWriter =
        ((createContext []).Abort 401).Writer ∧
      ((createContext []).Abort 401).Writer.statusWrites =
        (createContext []).Writer.statusWrites ++ [401] ∧
      ((createContext []).Abort 401).index = AbortIndex ∧
      ((createContext []).Abort 401).Errors = (createContext []).Errors ∧
      ((createContext []).Abort 401).Keys = (createContext []).Keys ∧
      ((createContext []).Abort 401).authorization = (createContext []).authorization ∧
      ((createContext []).Abort 401).trace = (createContext []).trace :=
  Abort_frame (createContext []) (writtenOK.reset (createContext []).Writer) 401 rfl

/-- C15.  For every context, error and meta value, `Error(err, meta)` appends exactly one
record (`Message = err.Error()`, `Meta = meta`) at the end of the error list, keeps the
earlier records unchanged and in order, and changes neither the index, the key/value table,
nor the response writer (so neither its status nor whether it was written). -/
theorem Error_appends_one (c : Context) (err : GoString) (meta : Any) :
    (c.Error err meta).Errors = c.Errors ++ [{ Message := err, Meta := meta }] ∧
      (c.Error err meta).Errors.length = c.Errors.length + 1 ∧
      (c.Error err meta).Errors.take c.Errors.length = c.Errors ∧
      (c.Error err meta).Errors.getLast? = some { Message := err, Meta := meta } ∧
      (c.Error err meta).index = c.index ∧ (c.Error err meta).Keys = c.Keys ∧
      (c.Error err meta).Writer = c.Writer ∧
      ∀ w : responseWriter, w.ResponseWriter = c.Writer →
        w.ResponseWriter = (c.Error err meta).Writer := by
  refine ⟨rfl, ?_, ?_, ?_, rfl, rfl, rfl, fun _ hw => hw⟩
  · simp [Context.Error]
  · simp [Context.Error]
  · simp [Context.Error]

theorem Context.Get_of_entry (c : Context) (key : GoString) :
    c.Get key =
      match c.entry key with
      | none => Except.error (str "Key " ++ key ++ str " doesn't exist")
      | some item =>
        if item = Any.nil then Except.error (str "Key " ++ key ++ str " doesn't exist")
        else Except.ok item := by
  unfold Context.Get Context.entry
  cases hk : c.Keys with
  | none => simp
  | some m =>
    cases hf : m.find? (fun kv => kv.1 = key) with
    | none => simp [hf]
    | some kv =>
      by_cases hnil : kv.2 = Any.nil
      · simp [hf, hnil]
      · simp [hf, hnil]

theorem find?_filter_other (m : List (GoString × Any)) (key other : GoString)
    (hne : other ≠ key) :
    (m.filter (fun kv => kv.1 ≠ other)).find? (fun kv => kv.1 = key) =
      m.find? (fun kv => kv.1 = key) := by
  induction m with
  | nil => rfl
  | cons kv rest ih =>
    by_cases h1 : kv.1 = other
    · have h2 : ¬ kv.1 = key := fun h => hne (h1.symm.trans h)
      rw [List.filter_cons_of_neg (by simp [h1]), List.find?_cons_of_neg _ (by simp [h2])]
      exact ih
    · rw [List.filter_cons_of_pos (by simp [h1])]
      by_cases h2 : kv.1 = key
      · rw [List.find?_cons_of_pos _ (by simp [h2]), List.find?_cons_of_pos _ (by simp [h2])]
      · rw [List.find?_cons_of_neg _ (by simp [h2]), List.find?_cons_of_neg _ (by simp [h2])]
        exact ih

theorem Context.entry_Set_same (c : Context) (key : GoString) (item : Any) :
    (c.Set key item).entry key = some item := by
  simp [Context.Set, Context.entry]

theorem Context.entry_Set_other (c : Context) (key other : GoString) (item : Any)
    (hne : other ≠ key) : (c.Set other item).entry key = c.entry key := by
  have hne' : ¬ other = key := hne
  cases hk : c.Keys with
  | none => simp [Context.Set, Context.entry, hk, List.find?_cons, hne']
  | some m =>
    simp only [Context.Set, Context.entry, hk]
    rw [List.find?_cons_of_neg _ (by simp [hne']), find?_filter_other m key other hne]

/-- C16.  For every context and key, `Get(key)` panics if and only if the key is absent from
the key/value table (the never-allocated table has no key) or is mapped to nil, and
otherwise it returns the item of the table.  After `Set(key, item)` with a non-nil item,
`Get(key)` returns `item`, whatever was stored before; and a `Set` on a different key does
not change what `Get(key)` does. -/
theorem Get_panics_iff (c : Context) (key : GoString) :
    ((∃ msg, c.Get key = Except.error msg) ↔
        (c.entry key = none ∨ c.entry key = some Any.nil)) ∧
      (c.Keys = none → c.entry key = none) ∧
      (∀ item, c.entry key = some item → item ≠ Any.nil → c.Get key = Except.ok item) ∧
      (∀ item, item ≠ Any.nil → (c.Set key item).Get key = Except.ok item) ∧
      (∀ item, (c.Set key Any.nil).Get key ≠ Except.ok item) ∧
      (∀ other item, other ≠ key → (c.Set other item).Get key = c.Get key) := by
  refine ⟨?_, ?_, ?_, ?_, ?_, ?_⟩
  · rw [Context.Get_of_entry]
    cases he : c.entry key with
    | none => simp
    | some item =>
      by_cases hnil : item = Any.nil
      · simp [hnil]
      · simp [hnil]
  · intro hk
    simp [Context.entry, hk]
  · intro item he hnil
    rw [Context.Get_of_entry, he]
    simp [hnil]
  · intro item hnil
    rw [Context.Get_of_entry, Context.entry_Set_same]
    simp [hnil]
  · intro item
    rw [Context.Get_of_entry, Context.entry_Set_same]
    simp
  · intro other item hne
    rw [Context.Get_of_entry, Context.Get_of_entry, Context.entry_Set_other c key other item hne]

/-- C16 (witness): on a fresh context `Get("user")` panics; after `Set("user", "alice")`,
`Set("role", nil)` and `Set("user", "bob")` it returns `"bob"`, and `Get("role")` panics. -/
theorem Get_panics_iff_witness :
    (createContext []).Get (str "user") = Except.error (str "Key user doesn't exist") ∧
      ((((createContext []).Set (str "user") (Any.text (str "alice"))).Set (str "role")
          Any.nil).Set (str "user") (Any.text (str "bob"))).Get (str "user") =
        Except.ok (Any.text (str "bob")) ∧
      ∃ msg, ((((createContext []).Set (str "user") (Any.text (str "alice"))).Set (str "role")
          Any.nil).Set (str "user") (Any.text (str "bob"))).Get (str "role") =
        Except.error msg :=
  ⟨by rfl,
   (Get_panics_iff (((createContext []).Set (str "user") (Any.text (str "alice"))).Set
      (str "role") Any.nil) (str "user")).2.2.2.1 (Any.text (str "bob")) (by decide),
   (Get_panics_iff ((((createContext []).Set (str "user") (Any.text (str "alice"))).Set
      (str "role") Any.nil).Set (str "user") (Any.text (str "bob"))) (str "role")).1.2
      (Or.inr (by rfl))⟩

/-! ## The response wrapper -/

theorem responseWriter.foldl_WriteHeader (codes : List Int) :
    ∀ w : responseWriter,
      (codes.foldl responseWriter.WriteHeader w).ResponseWriter.statusWrites =
          w.ResponseWriter.statusWrites ++ codes ∧
        (codes.foldl responseWriter.WriteHeader w).ResponseWriter.header =
          w.ResponseWriter.header ∧
        (codes.foldl responseWriter.WriteHeader w).ResponseWriter.body =
          w.ResponseWriter.body := by
  induction codes with
  | nil => intro w; simp
  | cons code rest ih =>
    intro w
    obtain ⟨h1, h2, h3⟩ := ih (w.WriteHeader code)
    refine ⟨?_, ?_, ?_⟩
    · rw [List.foldl_cons, h1]
      simp [responseWriter.WriteHeader, Gin.ResponseWriter.WriteHeader]
    · rw [List.foldl_cons, h2]
      rfl
    · rw [List.foldl_cons, h3]
      rfl

/-- C17.  For every wrapper state and every non-empty sequence of `WriteHeader` calls with
codes `c1..cn`, afterwards `Status()` is `cn` and `Written()` is true, and every call was
forwarded to the underlying writer once, in order: its log of status writes is the earlier
log followed by `c1..cn` (a second call is not suppressed), and nothing else was sent. -/
theorem WriteHeader_sequence (w : responseWriter) (codes : List Int) (hne : codes ≠ []) :
    some (codes.foldl responseWriter.WriteHeader w).Status = codes.getLast? ∧
      (codes.foldl responseWriter.WriteHeader w).Written = true ∧
      (codes.foldl responseWriter.WriteHeader w).ResponseWriter.statusWrites =
        w.ResponseWriter.statusWrites ++ codes ∧
      (codes.foldl responseWriter.WriteHeader w).ResponseWriter.header =
        w.ResponseWriter.header ∧
      (codes.foldl responseWriter.WriteHeader w).ResponseWriter.body =
        w.ResponseWriter.body := by
  obtain ⟨h1, h2, h3⟩ := responseWriter.foldl_WriteHeader codes w
  refine ⟨?_, ?_, h1, h2, h3⟩
  · rcases List.eq_nil_or_concat codes with hnil | ⟨init, last, hcat⟩
    · exact absurd hnil hne
    · subst hcat
      simp [List.foldl_append, responseWriter.WriteHeader, responseWriter.Status]
  · rcases List.eq_nil_or_concat codes with hnil | ⟨init, last, hcat⟩
    · exact absurd hnil hne
    · subst hcat
      simp [List.foldl_append, responseWriter.WriteHeader, responseWriter.Written]

/-- C17 (witness): `WriteHeader(200)` then `WriteHeader(500)` on a wrapper that has already
written 200. -/
theorem WriteHeader_sequence_witness :
    some ([200, 500].foldl responseWriter.WriteHeader writtenOK).Status =
        [200, 500].getLast? ∧
      ([200, 500].foldl responseWriter.WriteHeader writtenOK).Written = true ∧
      ([200, 500].foldl responseWriter.WriteHeader writtenOK).ResponseWriter.statusWrites =
        writtenOK.ResponseWriter.statusWrites ++ [200, 500] ∧
      ([200, 500].foldl responseWriter.WriteHeader writtenOK).ResponseWriter.header =
        writtenOK.ResponseWriter.header ∧
      ([200, 500].foldl responseWriter.WriteHeader writtenOK).ResponseWriter.body =
        writtenOK.ResponseWriter.body :=
  WriteHeader_sequence writtenOK [200, 500] (by decide)

/-- C18 (counterexample).  On a wrapper that has written status 200, `setStatus(404)` and
`WriteHeader(404)` both change `Status()` to 404. -/
theorem status_changes_after_written :
    writtenOK.Written = true ∧ writtenOK.Status = 200 ∧
      (writtenOK.setStatus 404).Status = 404 ∧ (writtenOK.WriteHeader 404).Status = 404 ∧
      (writtenOK.setStatus 404).Status ≠ writtenOK.Status ∧
      (writtenOK.WriteHeader 404).Status ≠ writtenOK.Status := by
  decide

/-- C18 (as amended).  For every wrapper state in which `Written()` is true and every code,
a later `setStatus(code)` or `WriteHeader(code)` makes `Status()` equal to `code` and leaves
`Written()` true; `Status()` is unchanged exactly when `code` is the status it already
had.  `setStatus` forwards nothing, `WriteHeader` forwards the code. -/
theorem status_after_written (w : responseWriter) (code : Int) (hw : w.Written = true) :
    (w.setStatus code).Status = code ∧ (w.setStatus code).Written = true ∧
      (w.WriteHeader code).Status = code ∧ (w.WriteHeader code).Written = true ∧
      ((w.setStatus code).Status = w.Status ↔ code = w.Status) ∧
      ((w.WriteHeader code).Status = w.Status ↔ code = w.Status) ∧
      (w.setStatus code).ResponseWriter = w.ResponseWriter ∧
      (w.WriteHeader code).ResponseWriter.statusWrites =
        w.ResponseWriter.statusWrites ++ [code] :=
  ⟨rfl, hw, rfl, rfl, Iff.rfl, Iff.rfl, rfl, rfl⟩

/-- C18 (witness): the wrapper that has written 200, and code 404. -/
theorem status_after_written_witness :
    (writtenOK.setStatus 404).Status = 404 ∧ (writtenOK.setStatus 404).Written = true ∧
      (writtenOK.WriteHeader 404).Status = 404 ∧ (writtenOK.WriteHeader 404).Written = true ∧
      ((writtenOK.setStatus 404).Status = writtenOK.Status ↔ 404 = writtenOK.Status) ∧
      ((writtenOK.WriteHeader 404).Status = writtenOK.Status ↔ 404 = writtenOK.Status) ∧
      (writtenOK.setStatus 404).ResponseWriter = writtenOK.ResponseWriter ∧
      (writtenOK.WriteHeader 404).ResponseWriter.statusWrites =
        writtenOK.ResponseWriter.statusWrites ++ [404] :=
  status_after_written writtenOK 404 rfl

/-! ## `JSON`, `XML` and `ErrorLogger` -/

/-- C19 (counterexample).  On a fresh context, `JSON(200, obj)` and `XML(200, obj)` with an
encoding that fails write status 200 and then, although a status has been written, status
500. -/
theorem failing_JSON_writes_status_twice :
    ((createContext []).JSON failingEncode 200 (Any.obj 0)).Writer.statusWrites = [200, 500] ∧
      ((createContext []).XML failingEncode 200 (Any.obj 0)).Writer.statusWrites = [200, 500] ∧
      ((createContext []).JSON failingEncode 200 (Any.obj 0)).Errors =
        [{ Message := str "unsupported type", Meta := Any.obj 0 }] := by
  decide

/-- C19 (as amended).  For every context, status code and value `obj` whose encoding fails
with `err`, `JSON(code, obj)` and likewise `XML(code, obj)` append one error record
(`Message = err.Error()`, `Meta = obj`) and issue the 500 status write in every case: the
status writes are the earlier ones, then `code` when `code >= 0`, then 500.  The index and
the key/value table are unchanged. -/
theorem failing_JSON_effect (encode : Any → Except GoString GoString) (c : Context)
    (code : Int) (obj : Any) (err : GoString) (hfail : encode obj = Except.error err) :
    (c.JSON encode code obj).Errors = c.Errors ++ [{ Message := err, Meta := obj }] ∧
      (c.JSON encode code obj).Writer.statusWrites =
        c.Writer.statusWrites ++ (if code ≥ 0 then [code, 500] else [500]) ∧
      (c.JSON encode code obj).index = c.index ∧ (c.JSON encode code obj).Keys = c.Keys ∧
      (c.XML encode code obj).Errors = c.Errors ++ [{ Message := err, Meta := obj }] ∧
      (c.XML encode code obj).Writer.statusWrites =
        c.Writer.statusWrites ++ (if code ≥ 0 then [code, 500] else [500]) ∧
      (c.XML encode code obj).index = c.index ∧ (c.XML encode code obj).Keys = c.Keys := by
  by_cases hcode : code ≥ 0
  · simp [Context.JSON, Context.XML, hfail, hcode, Context.Error, httpError,
      ResponseWriter.WriteHeader, ResponseWriter.Write, ResponseWriter.HeaderSet]
  · simp [Context.JSON, Context.XML, hfail, hcode, Context.Error, httpError,
      ResponseWriter.WriteHeader, ResponseWriter.Write, ResponseWriter.HeaderSet]

/-- C19 (witness): a fresh context, code 200 and the encoder that always fails. -/
theorem failing_JSON_effect_witness :
    ((createContext []).JSON failingEncode 200 (Any.obj 0)).Errors =
        (createContext []).Errors ++ [{ Message := str "unsupported type", Meta := Any.obj 0 }] ∧
      ((createContext []).JSON failingEncode 200 (Any.obj 0)).Writer.statusWrites =
        (createContext []).Writer.statusWrites ++ (if (200 : Int) ≥ 0 then [200, 500] else [500]) ∧
      ((createContext []).JSON failingEncode 200 (Any.obj 0)).index = (createContext []).index ∧
      ((createContext []).JSON failingEncode 200 (Any.obj 0)).Keys = (createContext []).Keys ∧
      ((createContext []).XML failingEncode 200 (Any.obj 0)).Errors =
        (createContext []).Errors ++ [{ Message := str "unsupported type", Meta := Any.obj 0 }] ∧
      ((createContext []).XML failingEncode 200 (Any.obj 0)).Writer.statusWrites =
        (createContext []).Writer.statusWrites ++ (if (200 : Int) ≥ 0 then [200, 500] else [500]) ∧
      ((createContext []).XML failingEncode 200 (Any.obj 0)).index = (createContext []).index ∧
      ((createContext []).XML failingEncode 200 (Any.obj 0)).Keys = (createContext []).Keys :=
  failing_JSON_effect failingEncode (createContext []) 200 (Any.obj 0) (str "unsupported type")
    rfl

theorem Context.JSON_of_ok (encode : Any → Except GoString GoString) (c : Context)
    (code : Int) (obj : Any) (bytes : GoString) (hok : encode obj = Except.ok bytes)
    (hneg : code < 0) :
    (c.JSON encode code obj).Writer.statusWrites = c.Writer.statusWrites ∧
      (c.JSON encode code obj).Writer.body = c.Writer.body ++ bytes ∧
      (c.JSON encode code obj).Writer.HeaderGet (str "Content-Type") =
        str "application/json" ∧
      (c.JSON encode code obj).Errors = c.Errors ∧ (c.JSON encode code obj).index = c.index ∧
      (c.JSON encode code obj).Keys = c.Keys := by
  have hcode : ¬ code ≥ 0 := by omega
  simp [Context.JSON, hok, hcode, ResponseWriter.Write, ResponseWriter.HeaderSet,
    ResponseWriter.HeaderGet]

theorem Context.JSON_of_error (encode : Any → Except GoString GoString) (c : Context)
    (code : Int) (obj : Any) (err : GoString) (herr : encode obj = Except.error err)
    (hneg : code < 0) :
    (c.JSON encode code obj).Writer.statusWrites = c.Writer.statusWrites ++ [500] := by
  have hcode : ¬ code ≥ 0 := by omega
  simp [Context.JSON, herr, hcode, Context.Error, httpError, ResponseWriter.WriteHeader,
    ResponseWriter.Write, ResponseWriter.HeaderSet]

/-- C20.  Let the rest of the chain (`c.Next()`) return with context `c1`.  If `c1` has no
error, `ErrorLogger` returns `c1` as it is: nothing is written.  If `c1` has errors and the
encoding of the error list succeeds with `bytes`, `ErrorLogger` returns the state of
`c1.JSON(-1, c1.Errors)`: the body has grown by `bytes`, the encoding of the whole error list
in its recorded order, and no status write was issued, so the status writes are those of the
earlier handlers; the error list and the index are unchanged.  For every negative code
`JSON` issues no status write for the code (none at all when the encoding succeeds, only the
500 of `http.Error` when it fails), and `render.writeHeader` leaves the writer as it is. -/
theorem ErrorLogger_effect (encode : Any → Except GoString GoString)
    (errorsValue : List ErrorMsg → Any) (next : Context → Outcome) (c c1 : Context)
    (hnext : next c = Outcome.done c1) :
    (c1.Errors = [] → ErrorLogger encode errorsValue next c = Outcome.done c1) ∧
      (∀ bytes, c1.Errors ≠ [] → encode (errorsValue c1.Errors) = Except.ok bytes →
        ErrorLogger encode errorsValue next c =
            Outcome.done (c1.JSON encode (-1) (errorsValue c1.Errors)) ∧
          (c1.JSON encode (-1) (errorsValue c1.Errors)).Writer.body = c1.Writer.body ++ bytes ∧
          (c1.JSON encode (-1) (errorsValue c1.Errors)).Writer.statusWrites =
            c1.Writer.statusWrites ∧
          (c1.JSON encode (-1) (errorsValue c1.Errors)).Errors = c1.Errors ∧
          (c1.JSON encode (-1) (errorsValue c1.Errors)).index = c1.index) ∧
      (∀ (c0 : Context) (code : Int) (obj : Any), code < 0 →
        (∀ bytes, encode obj = Except.ok bytes →
          (c0.JSON encode code obj).Writer.statusWrites = c0.Writer.statusWrites) ∧
        (∀ err, encode obj = Except.error err →
          (c0.JSON encode code obj).Writer.statusWrites = c0.Writer.statusWrites ++ [500])) ∧
      (∀ (w : ResponseWriter) (code : Int) (contentType : GoString), code < 0 →
        render.writeHeader w code contentType = w) := by
  refine ⟨?_, ?_, ?_, ?_⟩
  · intro hnil
    simp [ErrorLogger, hnext, Outcome.bind, hnil]
  · intro bytes hne hok
    have hlen : c1.Errors.length > 0 := List.length_pos.2 hne
    obtain ⟨h1, h2, _, h4, h5, _⟩ :=
      Context.JSON_of_ok encode c1 (-1) (errorsValue c1.Errors) bytes hok (by decide)
    refine ⟨?_, h2, h1, h4, h5⟩
    simp only [ErrorLogger, hnext, Outcome.bind, if_pos hlen]
  · intro c0 code obj hneg
    exact ⟨fun bytes hok => (Context.JSON_of_ok encode c0 code obj bytes hok hneg).1,
      fun err herr => Context.JSON_of_error encode c0 code obj err herr hneg⟩
  · intro w code contentType hneg
    have hcode : ¬ code ≥ 0 := by omega
    simp [render.writeHeader, hcode]

/-- C20 (witness): the rest of the chain records one error on a fresh context (as `Fail(401)`
does), and the error list encodes to `[1]`. -/
theorem ErrorLogger_effect_witness :
    ErrorLogger (fun _ => Except.ok (str "[1]")) (fun _ => Any.obj 0)
        (fun c => Outcome.done (c.Fail 401 (str "Unauthorized"))) (createContext []) =
      Outcome.done
        (((createContext []).Fail 401 (str "Unauthorized")).JSON
          (fun _ => Except.ok (str "[1]")) (-1) (Any.obj 0)) ∧
      (((createContext []).Fail 401 (str "Unauthorized")).JSON
          (fun _ => Except.ok (str "[1]")) (-1) (Any.obj 0)).Writer.body = str "[1]" ∧
      (((createContext []).Fail 401 (str "Unauthorized")).JSON
          (fun _ => Except.ok (str "[1]")) (-1) (Any.obj 0)).Writer.statusWrites = [401] :=
  have h := (ErrorLogger_effect (fun _ => Except.ok (str "[1]")) (fun _ => Any.obj 0)
    (fun c => Outcome.done (c.Fail 401 (str "Unauthorized"))) (createContext [])
    ((createContext []).Fail 401 (str "Unauthorized")) rfl).2.1 (str "[1]") (by decide) rfl
  ⟨h.1, h.2.1, h.2.2.1⟩

/-! ## The `BasicAuth` handler -/

theorem searchCredential_nil_of_no_code (pairs : Pairs) (auth : GoString)
    (hnone : ∀ p ∈ pairs, p.Code ≠ auth) : searchCredential pairs auth = [] := by
  by_cases hlen : auth.length = 0
  · simp [searchCredential, hlen]
  · simp only [searchCredential, if_neg hlen]
    cases hget : pairs[sortSearch pairs.length (fun i => !strLess (pairs.codeAt i) auth)]? with
    | none => rfl
    | some p =>
      have hp : p.Code ≠ auth := hnone p (List.getElem?_mem hget)
      simp [ConstantTimeCompare, hp]

theorem Context.Get_Set_text (c : Context) (key user : GoString) :
    (c.Set key (Any.text user)).Get key = Except.ok (Any.text user) := by
  rw [Context.Get_of_entry, Context.entry_Set_same]
  simp

/-- C12 (counterexample).  The list of the accounts (`a`, `b:c`) and (`a:b`, `c`) is accepted;
on a request whose Authorization header is the token of the second account, the handler of
`BasicAuth` stores `a` under the key `user`, not the `User` `a:b` of that account. -/
theorem BasicAuth_stores_other_user :
    processCredentials [colonFirst, colonSecond] =
        Except.ok [colonFirst.pair, colonSecond.pair] ∧
      BasicAuth.handler [colonFirst.pair, colonSecond.pair] Outcome.done
          (createContext colonSecond.code) =
        Outcome.done ((createContext colonSecond.code).Set (str "user") (Any.text (str "a"))) ∧
      ((createContext colonSecond.code).Set (str "user") (Any.text (str "a"))).Get (str "user") =
        Except.ok (Any.text (str "a")) ∧
      colonSecond.User = str "a:b" ∧ colonSecond.User ≠ str "a" :=
  ⟨by rfl, by decide, by rfl, by rfl, by decide⟩

/-- C12 (as amended).  For every account list accepted by `processCredentials` (`BasicAuth`
then returns its handler over the built pairs) and every request: if the Authorization header
equals the token of an account `a` of the list, the handler stores under the key `user` the
`User` of an account of the list that has this token, which is `a.User` when the accounts
with the token of `a` all have the `User` of `a`, and it changes neither the index, the error
list nor the response writer; if the header equals the token of no account of the list, the
handler sets the header `WWW-Authenticate` to `Basic realm="Authorization Required"`, appends
one error record, writes status 401 and sets the index to `AbortIndex`.  In both cases it
returns without calling `Next`. -/
theorem BasicAuth_handler_effect (accounts : Accounts) (pairs : Pairs)
    (next : Context → Outcome) (c : Context)
    (hacc : processCredentials accounts = Except.ok pairs) :
    (∃ handler, BasicAuth accounts = Except.ok handler ∧ handler = BasicAuth.handler pairs) ∧
      (∀ a ∈ accounts, c.authorization = a.code →
        ∃ b ∈ accounts, b.code = a.code ∧
          BasicAuth.handler pairs next c =
            Outcome.done (c.Set (str "user") (Any.text b.User)) ∧
          (c.Set (str "user") (Any.text b.User)).Get (str "user") =
            Except.ok (Any.text b.User) ∧
          (c.Set (str "user") (Any.text b.User)).index = c.index ∧
          (c.Set (str "user") (Any.text b.User)).Errors = c.Errors ∧
          (c.Set (str "user") (Any.text b.User)).Writer = c.Writer) ∧
      (∀ a ∈ accounts, c.authorization = a.code →
        (∀ b ∈ accounts, b.code = a.code → b.User = a.User) →
        BasicAuth.handler pairs next c =
          Outcome.done (c.Set (str "user") (Any.text a.User))) ∧
      ((∀ a ∈ accounts, c.authorization ≠ a.code) →
        ∃ c1, BasicAuth.handler pairs next c = Outcome.done c1 ∧
          c1.Writer.HeaderGet (str "WWW-Authenticate") =
            str "Basic realm=\"Authorization Required\"" ∧
          c1.Errors = c.Errors ++
            [{ Message := str "Unauthorized", Meta := Any.text (str "Operation aborted") }] ∧
          c1.Writer.statusWrites = c.Writer.statusWrites ++ [401] ∧
          c1.index = AbortIndex ∧ c1.Keys = c.Keys) := by
  obtain ⟨_, hall, hpairs⟩ := (processCredentials_ok_iff accounts pairs).1 hacc
  have hmatch : ∀ a ∈ accounts, c.authorization = a.code →
      ∃ b ∈ accounts, b.code = a.code ∧
        BasicAuth.handler pairs next c =
          Outcome.done (c.Set (str "user") (Any.text b.User)) := by
    intro a ha hauth
    obtain ⟨b, hb, hcode, hres⟩ := searchCredential_of_accepted accounts pairs a hacc ha
    refine ⟨b, hb, hcode, ?_⟩
    have hlen : ¬ b.User.length = 0 := by
      have := (hall b hb).1
      simpa using this
    simp only [BasicAuth.handler, hauth, hres, if_neg hlen]
  refine ⟨⟨_, by simp [BasicAuth, hacc], rfl⟩, ?_, ?_, ?_⟩
  · intro a ha hauth
    obtain ⟨b, hb, hcode, hrun⟩ := hmatch a ha hauth
    exact ⟨b, hb, hcode, hrun, Context.Get_Set_text c _ _, rfl, rfl, rfl⟩
  · intro a ha hauth huniq
    obtain ⟨b, hb, hcode, hrun⟩ := hmatch a ha hauth
    rw [hrun, huniq b hb hcode]
  · intro hnone
    have hnil : searchCredential pairs c.authorization = [] := by
      apply searchCredential_nil_of_no_code
      intro p hp hcode
      rw [hpairs] at hp
      obtain ⟨b, hb, hbp⟩ := List.mem_map.1 ((sortPairs_perm _).mem_iff.1 hp)
      apply hnone b hb
      rw [← hcode, ← hbp]
      rfl
    let w1 : ResponseWriter :=
      c.Writer.HeaderSet (str "WWW-Authenticate") (str "Basic realm=\"Authorization Required\"")
    let c0 : Context := { c with Writer := w1 }
    refine ⟨c0.Fail 401 (str "Unauthorized"),
      by simp only [BasicAuth.handler, hnil, List.length_nil, if_true, c0, w1],
      ?_, rfl, rfl, rfl, rfl⟩
    simp [c0, w1, Context.Fail, Context.Abort, Context.Error, ResponseWriter.WriteHeader,
      ResponseWriter.HeaderSet, ResponseWriter.HeaderGet]

/-- C12 (witness): the store of alice and bob, on a request with the token of alice. -/
theorem BasicAuth_handler_effect_witness :
    BasicAuth.handler [alice.pair, bob.pair] Outcome.done (createContext alice.code) =
      Outcome.done ((createContext alice.code).Set (str "user") (Any.text alice.User)) :=
  (BasicAuth_handler_effect [alice, bob] [alice.pair, bob.pair] Outcome.done
    (createContext alice.code) (by rfl)).2.2.1 alice (by decide) rfl (by decide)

/-! ## The token encoding -/

theorem encodeStd.at_ne_pad : ∀ v, v < 64 → encodeStd.at v ≠ 61 := by
  decide

theorem encodeStd.at_inj_small : ∀ u, u < 64 → ∀ v, v < 64 →
    encodeStd.at u = encodeStd.at v → u = v := by
  decide

theorem encodeStd.at_mod (v : Nat) : encodeStd.at (v % 64) = encodeStd.at v := by
  simp [encodeStd.at]

theorem encodeStd.at_ne_61 (v : Nat) : encodeStd.at v ≠ 61 := by
  rw [← encodeStd.at_mod]
  exact encodeStd.at_ne_pad _ (Nat.mod_lt _ (by decide))

theorem encodeStd.at_inj (u v : Nat) (h : encodeStd.at u = encodeStd.at v) :
    u % 64 = v % 64 := by
  rw [← encodeStd.at_mod u, ← encodeStd.at_mod v] at h
  exact encodeStd.at_inj_small _ (Nat.mod_lt _ (by decide)) _ (Nat.mod_lt _ (by decide)) h

theorem base64Encode_eq_nil (x : GoString) (h : base64Encode x = []) : x = [] := by
  match x with
  | [] => rfl
  | [_] => simp [base64Encode] at h
  | [_, _] => simp [base64Encode] at h
  | _ :: _ :: _ :: _ => simp [base64Encode] at h

theorem base64Encode_inj :
    ∀ (n : Nat) (x y : GoString), x.length ≤ n → GoString.wellFormed x → GoString.wellFormed y →
      base64Encode x = base64Encode y → x = y := by
  intro n
  induction n with
  | zero =>
    intro x y hlen _ _ h
    have hx : x = [] := List.length_eq_zero.1 (by omega)
    subst hx
    exact (base64Encode_eq_nil y (by simpa [base64Encode] using h.symm)).symm
  | succ n ih =>
    intro x y hlen hx hy h
    match x, y with
    | [], y => exact (base64Encode_eq_nil y (by simpa [base64Encode] using h.symm)).symm
    | x, [] => exact base64Encode_eq_nil x (by simpa [base64Encode] using h)
    | [a], [a'] =>
      simp only [base64Encode, List.cons.injEq, and_true] at h
      have h1 := encodeStd.at_inj _ _ h.1
      have h2 := encodeStd.at_inj _ _ h.2
      have ha : a < 256 := hx a (by simp)
      have ha' : a' < 256 := hy a' (by simp)
      have : a = a' := by omega
      rw [this]
    | [a], [a', b'] =>
      simp only [base64Encode, List.cons.injEq] at h
      exact absurd h.2.2.1.symm (encodeStd.at_ne_61 _)
    | [a], a' :: b' :: c' :: rest' =>
      simp only [base64Encode, List.cons_append, List.nil_append, List.cons.injEq] at h
      exact absurd h.2.2.1.symm (encodeStd.at_ne_61 _)
    | [a, b], [a'] =>
      simp only [base64Encode, List.cons.injEq] at h
      exact absurd h.2.2.1 (encodeStd.at_ne_61 _)
    | [a, b], [a', b'] =>
      simp only [base64Encode, List.cons.injEq, and_true] at h
      have h1 := encodeStd.at_inj _ _ h.1
      have h2 := encodeStd.at_inj _ _ h.2.1
      have h3 := encodeStd.at_inj _ _ h.2.2
      have ha : a < 256 := hx a (by simp)
      have hb : b < 256 := hx b (by simp)
      have ha' : a' < 256 := hy a' (by simp)
      have hb' : b' < 256 := hy b' (by simp)
      have e1 : a = a' := by omega
      have e2 : b = b' := by omega
      rw [e1, e2]
    | [a, b], a' :: b' :: c' :: rest' =>
      simp only [base64Encode, List.cons_append, List.nil_append, List.cons.injEq] at h
      exact absurd h.2.2.2.1.symm (encodeStd.at_ne_61 _)
    | a :: b :: c :: rest, [a'] =>
      simp only [base64Encode, List.cons_append, List.nil_append, List.cons.injEq] at h
      exact absurd h.2.2.1 (encodeStd.at_ne_61 _)
    | a :: b :: c :: rest, [a', b'] =>
      simp only [base64Encode, List.cons_append, List.nil_append, List.cons.injEq] at h
      exact absurd h.2.2.2.1 (encodeStd.at_ne_61 _)
    | a :: b :: c :: rest, a' :: b' :: c' :: rest' =>
      simp only [base64Encode, List.cons_append, List.nil_append, List.cons.injEq] at h
      have h1 := encodeStd.at_inj _ _ h.1
      have h2 := encodeStd.at_inj _ _ h.2.1
      have h3 := encodeStd.at_inj _ _ h.2.2.1
      have h4 := encodeStd.at_inj _ _ h.2.2.2.1
      have ha : a < 256 := hx a (by simp)
      have hb : b < 256 := hx b (by simp)
      have hc : c < 256 := hx c (by simp)
      have ha' : a' < 256 := hy a' (by simp)
      have hb' : b' < 256 := hy b' (by simp)
      have hc' : c' < 256 := hy c' (by simp)
      have e1 : a = a' := by omega
      have e2 : b = b' := by omega
      have e3 : c = c' := by omega
      have hrest : rest = rest' := by
        apply ih rest rest' _ _ _ h.2.2.2.2
        · simp only [List.length_cons] at hlen; omega
        · intro z hz; exact hx z (by simp [hz])
        · intro z hz; exact hy z (by simp [hz])
      rw [e1, e2, e3, hrest]

theorem strLess_append_left (p x y : GoString) : strLess (p ++ x) (p ++ y) = strLess x y := by
  induction p with
  | nil => rfl
  | cons b rest ih => simp [strLess, ih]

/-- C22 (counterexample).  bob:pw2 is byte-wise smaller than bot:pw2, but the token of bob
(`Basic Ym9iOnB3Mg==`) is not smaller than the token of bot (`Basic Ym90OnB3Mg==`): it is
larger. -/
theorem token_order_not_preserved :
    strLess bob.base bot.base = true ∧ strLess bob.code bot.code = false ∧
      strLess bot.code bob.code = true := by
  decide

/-- C22 (as amended).  The token encoding of `processCredentials` is one-to-one, not
order-preserving: for any two accounts whose `User` and `Password` are byte strings, the
tokens are equal exactly when the strings `User + ":" + Password` are equal, and the order of
the two tokens is the order of the base64 encodings of these strings (the prefix `"Basic "`
plays no part). -/
theorem token_one_to_one (a b : Account)
    (ha : GoString.wellFormed a.User ∧ GoString.wellFormed a.Password)
    (hb : GoString.wellFormed b.User ∧ GoString.wellFormed b.Password) :
    (a.code = b.code ↔ a.base = b.base) ∧
      strLess a.code b.code = strLess (base64Encode a.base) (base64Encode b.base) := by
  have hwa : GoString.wellFormed a.base := by
    intro z hz
    simp only [Account.base, List.mem_append] at hz
    rcases hz with (hz | hz) | hz
    · exact ha.1 z hz
    · have : z = 58 := by simpa [str] using hz
      omega
    · exact ha.2 z hz
  have hwb : GoString.wellFormed b.base := by
    intro z hz
    simp only [Account.base, List.mem_append] at hz
    rcases hz with (hz | hz) | hz
    · exact hb.1 z hz
    · have : z = 58 := by simpa [str] using hz
      omega
    · exact hb.2 z hz
  refine ⟨⟨?_, ?_⟩, ?_⟩
  · intro h
    have h0 : str "Basic " ++ base64Encode a.base = str "Basic " ++ base64Encode b.base := h
    have h' : base64Encode a.base = base64Encode b.base := List.append_cancel_left h0
    exact base64Encode_inj a.base.length a.base b.base (le_refl _) hwa hwb h'
  · intro h
    simp only [Account.code]
    simp only [Account.base] at h
    rw [h]
  · simp only [Account.code, Account.base]
    exact strLess_append_left _ _ _

/-- C22 (witness): bob and bot. -/
theorem token_one_to_one_witness :
    (bob.code = bot.code ↔ bob.base = bot.base) ∧
      strLess bob.code bot.code = strLess (base64Encode bob.base) (base64Encode bot.base) :=
  token_one_to_one bob bot ⟨by decide, by decide⟩ ⟨by decide, by decide⟩

/-! ## The wrapper after `reset`, validation, the cursor -/

/-- C24 (counterexample).  On a freshly reset wrapper, writing a body byte with `Write`
(without a previous `WriteHeader`) sends the byte and leaves `Written()` false. -/
theorem Write_leaves_written_false :
    ((writtenOK.reset { header := [], statusWrites := [], body := [] }).Write [120]).Written =
        false ∧
      ((writtenOK.reset { header := [], statusWrites := [], body := [] }).Write
        [120]).ResponseWriter.body = [120] := by
  decide

/-- C24 (as amended).  For every freshly reset response wrapper, `Status() = 0` and
`Written() = false`; `Written()` becomes true as soon as a status line is written with
`WriteHeader`; a body write with `Write` (without a previous `WriteHeader`) goes to the
embedded writer and leaves `Written()` false and `Status()` 0. -/
theorem reset_then_write (w : responseWriter) (writer : ResponseWriter) (code : Int)
    (data : GoString) :
    (w.reset writer).Status = 0 ∧ (w.reset writer).Written = false ∧
      (w.reset writer).ResponseWriter = writer ∧
      ((w.reset writer).WriteHeader code).Written = true ∧
      ((w.reset writer).WriteHeader code).Status = code ∧
      ((w.reset writer).Write data).Written = false ∧
      ((w.reset writer).Write data).Status = 0 ∧
      ((w.reset writer).Write data).ResponseWriter.body = writer.body ++ data ∧
      (((w.reset writer).Write data).WriteHeader code).Written = true :=
  ⟨rfl, rfl, rfl, rfl, rfl, rfl, rfl, rfl, rfl⟩

/-- C26 (evaluation).  For the struct value with the required field `A` at its zero value,
followed by the nested struct `B`: gin-0.1 `Validate` appends the record `Required A` and
returns nil, because `err = Validate(c, fieldValue)` for `B` overwrites the error;
`ParseBody` returns nil and `EnsureBody` true as well.  `Validate` of gin-0.2b returns the
error `Required A` for the same value. -/
theorem Validate_returns_nil_after_record :
    Validate (createContext []) requiredThenNested =
        ((createContext []).Error (str "Required A") (Any.text (str "json validation")),
          none) ∧
      ((createContext []).ParseBody (Except.ok requiredThenNested)).2 = none ∧
      ((createContext []).EnsureBody (Except.ok requiredThenNested)).2 = true ∧
      binding.Validate requiredThenNested = some (str "Required A") := by
  decide

/-- C21 (evaluation at 65 handlers).  In the dispatch over `abortAt64`, started by `Next` on
a fresh context, the handler at index 64 sees the index 64, calls `Abort`, and then sees the
index 63: the index has decreased.  When it returns the loop of `Next` increments the index
to 64 and uses it to call the handler at index 64 once more, after the index had been set to
`AbortIndex`.  This holds for every bound on the execution that lets the dispatch return. -/
theorem abort_lowers_index_and_handler_runs_again (n : Nat) :
    Context.Next abortAt64 (67 + n) (createContext []) =
      Outcome.done
        { createContext [] with
          Writer := { header := [], statusWrites := [401], body := [] }
          index := 65
          trace := (List.range 65).map Event.enter ++
            [Event.work 64, Event.work 63, Event.enter 64] } :=
  Context.Next_mono_add abortAt64 67 (createContext []) _ (by decide) (by simp) n

/-! ## Paths -/

/-- With `slashRouter`, on the chain `/v1`, `users`: the route `/v1/users/new` is registered
with the handlers of the chain, and the relative path `x` on the root is refused. -/
theorem registerUnderChain_slashRouter :
    (∃ e, registerUnderChain slashRouter [[HandlerFunc.work 0 .ret]]
          [{ before := [], component := str "/v1", handlers := [HandlerFunc.work 1 .ret] },
            { before := [], component := str "users", handlers := [] }]
          [] (str "GET") (str "new") [HandlerFunc.work 2 .ret] = some e ∧
        e.routes.map Route.path = [str "/v1/users/new"] ∧
        e.routes.map Route.handlers =
          [[HandlerFunc.work 0 .ret, HandlerFunc.work 1 .ret, HandlerFunc.work 2 .ret]]) ∧
      registerUnderChain slashRouter [] [] [] (str "GET") (str "x") [] = none :=
  ⟨⟨_, rfl, by decide, rfl⟩, rfl⟩

/-! ## Dispatch over at most 64 handlers -/

set_option maxRecDepth 8000 in
/-- The log of the dispatch over `abortAt62`: handlers 0 to 62 are called, handler 62 calls
`Abort`, and handler 63 is not called. -/
theorem NextLog_abortAt62 :
    (Context.NextLog abortAt62 64 (createContext [])).2 =
      (List.range 63).map Step.called ++ [Step.aborted] := by
  decide

set_option maxRecDepth 8000 in
/-- The log tells dispatches apart: over the 65 handlers of `abortChain65` handler 64 is
called after handler 1 has called `Abort`, and the log shows it. -/
theorem NextLog_abortChain65 :
    (Context.NextLog abortChain65 4 (createContext [])).2 =
        [Step.called 0, Step.called 1, Step.aborted, Step.called 64] ∧
      calls (afterAbort (Context.NextLog abortChain65 4 (createContext [])).2) = [64] := by
  decide

/-! ## Validation: errors and records -/

theorem Validate.required_spec (c : Context) (err : Option GoString) (info : FieldInfo)
    (zero : Bool) :
    ∃ extra, (Validate.required c err info zero).1.Errors = c.Errors ++ extra ∧
      ((Validate.required c err info zero).2 ≠ none → err ≠ none ∨ extra ≠ []) := by
  unfold Validate.required
  by_cases h1 : hasSubstr info.binding (str "required") = true
  · cases zero with
    | true =>
      simp only [h1, if_true]
      exact ⟨_, rfl, fun _ => Or.inr (by simp)⟩
    | false =>
      simp only [h1, if_true]
      exact ⟨[], by simp, fun h => Or.inl h⟩
  · simp only [h1]
    exact ⟨[], by simp, fun h => Or.inl h⟩

theorem Validate.fields_spec :
    ∀ (fs : Fields) (c : Context) (err : Option GoString),
      ∃ extra, (Validate.fields fs c err).1.Errors = c.Errors ++ extra ∧
        ((Validate.fields fs c err).2 ≠ none → err ≠ none ∨ extra ≠ []) := by
  intro fs
  induction fs with
  | nil => intro c err; exact ⟨[], by simp [Validate.fields], fun h => Or.inl h⟩
  | scalar info zero rest ih =>
    intro c err
    obtain ⟨x1, h1, g1⟩ := Validate.required_spec c err info zero
    obtain ⟨x2, h2, g2⟩ :=
      ih (Validate.required c err info zero).1 (Validate.required c err info zero).2
    refine ⟨x1 ++ x2, ?_, ?_⟩
    · simp only [Validate.fields]
      rw [h2, h1, List.append_assoc]
    · intro h
      simp only [Validate.fields] at h
      rcases g2 h with h3 | h3
      · rcases g1 h3 with h4 | h4
        · exact Or.inl h4
        · exact Or.inr (by simp [h4])
      · exact Or.inr (by simp [h3])
  | nested info inner rest ih1 ih2 =>
    intro c err
    obtain ⟨x0, h0, g0⟩ := ih1 c none
    obtain ⟨x1, h1, g1⟩ :=
      Validate.required_spec (Validate.fields inner c none).1 (Validate.fields inner c none).2
        info inner.isZero
    obtain ⟨x2, h2, g2⟩ :=
      ih2 (Validate.required (Validate.fields inner c none).1 (Validate.fields inner c none).2
          info inner.isZero).1
        (Validate.required (Validate.fields inner c none).1 (Validate.fields inner c none).2
          info inner.isZero).2
    refine ⟨x0 ++ x1 ++ x2, ?_, ?_⟩
    · simp only [Validate.fields]
      rw [h2, h1, h0, List.append_assoc, List.append_assoc, List.append_assoc]
    · intro h
      simp only [Validate.fields] at h
      right
      rcases g2 h with h3 | h3
      · rcases g1 h3 with h4 | h4
        · rcases g0 h4 with h5 | h5
          · exact absurd rfl h5
          · simp [h5]
        · simp [h4]
      · simp [h3]

/-- The direction of C26 that holds: when gin-0.1 `Validate` returns a non-nil error it has
appended at least one record to the error list of the context (and it never removes one). -/
theorem Validate_error_has_record (c : Context) (obj : Fields)
    (h : (Validate c obj).2 ≠ none) :
    ∃ extra, extra ≠ [] ∧ (Validate c obj).1.Errors = c.Errors ++ extra := by
  obtain ⟨extra, h1, g1⟩ := Validate.fields_spec obj c none
  rcases g1 h with h2 | h2
  · exact absurd rfl h2
  · exact ⟨extra, h2, h1⟩

end Gin
